import Mathlib

/-!
Verification of the marker state & synchronization engine of the
elvensong-map repository.

The development shallowly embeds the TypeScript source:

* `Json`, `ppVal` and `parseVal` model the `JSON` platform values together
  with `JSON.stringify(·, null, 2)` and `JSON.parse`.  A number is carried
  as the exact value of its decimal literal, a mantissa and a base-10
  exponent (`Json.num m e` denotes `m * 10 ^ e`); every IEEE double is such
  a value, and the identification of JavaScript's float64 arithmetic with
  exact decimal values is the one uniform approximation of the embedding
  (the data model's coordinates are integers, where the two agree).
* `UndoRedo` with `UndoRedo.setState`, `UndoRedo.undo`, `UndoRedo.redo`,
  `UndoRedo.clearHistory` embeds `useUndoRedo` from `src/types/index.ts`.
* `RepoState` with `importMarkers`, `exportMarkers`, `refreshFromSource` and
  `filteredMarkers` embeds `useMarkers` from `src/hooks/useMarkers.ts`.
* `toLeaflet` / `fromLeaflet` embed `utils/coordinates.ts` and
  `parseShareUrl` embeds the share-URL codec.
-/

/-- A JSON value as produced by `JSON.parse`.  A number is kept as the
exact value of its decimal literal: `num m e` denotes `m * 10 ^ e`, the
mantissa being the literal's digits (signed) and the exponent placing the
decimal point.  Every number the engine itself serializes is an integer
pixel coordinate or zoom level, carried as `num m 0`. -/
inductive Json where
  | null : Json
  | bool : Bool → Json
  | num : Int → Int → Json
  | str : String → Json
  | arr : List Json → Json
  | obj : List (String × Json) → Json
deriving Inhabited

/-- Whitespace accepted between JSON tokens (the four characters of the JSON
grammar, which include everything `JSON.stringify(·, null, 2)` emits). -/
def isJsonWs (c : Char) : Bool :=
  c == ' ' || c == '\n' || c == '\t' || c == '\r'

/-- A decimal digit, for number lexing. -/
def isJsonDigit (c : Char) : Bool :=
  '0' ≤ c && c ≤ '9'

/-- Drop leading JSON whitespace. -/
def skipJsonWs : List Char → List Char
  | [] => []
  | c :: cs => if isJsonWs c then skipJsonWs cs else c :: cs

/-- The character for the decimal digit `k < 10`. -/
def decDigitChar (k : Nat) : Char := Char.ofNat (48 + k)

/-- The character for the hexadecimal digit `k < 16`, lower case as in the
`\u00xx` escapes `JSON.stringify` emits for control characters. -/
def hexDigitChar (k : Nat) : Char :=
  if k < 10 then Char.ofNat (48 + k) else Char.ofNat (87 + k)

/-- Numeric value of a hexadecimal digit character, if it is one. -/
def hexDigitVal (c : Char) : Option Nat :=
  if '0' ≤ c && c ≤ '9' then some (c.toNat - 48)
  else if 'a' ≤ c && c ≤ 'f' then some (c.toNat - 87)
  else if 'A' ≤ c && c ≤ 'F' then some (c.toNat - 55)
  else none

/-- Decimal digit characters of `n`, most significant first. -/
def natDecChars (n : Nat) : List Char :=
  if _h : n < 10 then [decDigitChar n]
  else natDecChars (n / 10) ++ [decDigitChar (n % 10)]
termination_by n
decreasing_by exact Nat.div_lt_self (by omega) (by omega)

/-- Decimal rendering of an integer: an optional minus sign and digits,
exactly as `JSON.stringify` prints an integral number. -/
def intDecChars (i : Int) : List Char :=
  if i < 0 then '-' :: natDecChars i.natAbs else natDecChars i.natAbs

/-- Numeric value of a run of decimal digit characters. -/
def decDigitsVal (ds : List Char) : Nat :=
  ds.foldl (fun acc c => 10 * acc + (c.toNat - 48)) 0

/-- Decimal rendering of the number `m * 10 ^ e`, within the JSON number
grammar.  An integer (`e = 0`) prints as its digits, exactly as
`JSON.stringify` prints an integral double; a negative exponent prints the
exact decimal fraction with `-e` fractional digits; a positive exponent
prints in exponent notation.  The program itself only ever stringifies
integers (`e = 0`); the other shapes make the printer total and exact. -/
def numChars (m e : Int) : List Char :=
  if e = 0 then intDecChars m
  else if 0 < e then intDecChars m ++ 'e' :: natDecChars e.toNat
  else
    (if m < 0 then ['-'] else []) ++
      (natDecChars (m.natAbs / 10 ^ (-e).toNat) ++
        '.' :: (List.replicate ((-e).toNat
            - (natDecChars (m.natAbs % 10 ^ (-e).toNat)).length) '0'
          ++ natDecChars (m.natAbs % 10 ^ (-e).toNat)))

/-- JSON escaping of a single string character, as `JSON.stringify` does it:
quote, backslash and the five short escapes get two-character forms, the
remaining control characters get `\u00xx`, and everything else is itself. -/
def escChar (c : Char) : List Char :=
  if c = '"' then ['\\', '"']
  else if c = '\\' then ['\\', '\\']
  else if c = '\n' then ['\\', 'n']
  else if c = '\r' then ['\\', 'r']
  else if c = '\t' then ['\\', 't']
  else if c = '\x08' then ['\\', 'b']
  else if c = '\x0c' then ['\\', 'f']
  else if c.toNat < 32 then
    ['\\', 'u', '0', '0', hexDigitChar (c.toNat / 16), hexDigitChar (c.toNat % 16)]
  else [c]

/-- A JSON string literal: quoted, with every character escaped as needed. -/
def strLitChars (s : String) : List Char :=
  '"' :: (s.data.flatMap escChar ++ ['"'])

/-- Newline followed by the indentation of nesting depth `d`, as emitted
between the items of an array or object by `JSON.stringify(·, null, 2)`. -/
def indentChars (d : Nat) : List Char :=
  '\n' :: List.replicate (2 * d) ' '

mutual

/-- Characters of `JSON.stringify(j, null, 2)` when `j` occurs at nesting
depth `d` (the root is depth 0).  Non-empty arrays and objects put every
item on its own line, indented two spaces per depth. -/
def ppVal (d : Nat) : Json → List Char
  | .null => "null".data
  | .bool true => "true".data
  | .bool false => "false".data
  | .num m e => numChars m e
  | .str s => strLitChars s
  | .arr [] => ['[', ']']
  | .arr (e :: es) => '[' :: (indentChars (d + 1) ++ ppVal (d + 1) e ++
      ppElemsTail (d + 1) es ++ indentChars d ++ [']'])
  | .obj [] => ['{', '}']
  | .obj (m :: ms) => '{' :: (indentChars (d + 1) ++ strLitChars m.1 ++
      ':' :: ' ' :: ppVal (d + 1) m.2 ++ ppFieldsTail (d + 1) ms ++
      indentChars d ++ ['}'])

/-- Second and later array items: a comma, a fresh indented line, the item. -/
def ppElemsTail (d : Nat) : List Json → List Char
  | [] => []
  | e :: es => ',' :: (indentChars d ++ ppVal d e ++ ppElemsTail d es)

/-- Second and later object members: comma, indented line, key, colon-space,
value. -/
def ppFieldsTail (d : Nat) : List (String × Json) → List Char
  | [] => []
  | m :: ms => ',' :: (indentChars d ++ strLitChars m.1 ++ ':' :: ' ' ::
      ppVal d m.2 ++ ppFieldsTail d ms)

end

/-- The model of `JSON.stringify(j, null, 2)`. -/
def stringify2 (j : Json) : String := String.mk (ppVal 0 j)

/-- Undo a two-character escape (`\u` is handled separately). -/
def unescChar (c : Char) : Option Char :=
  if c = '"' || c = '\\' || c = '/' then some c
  else if c = 'n' then some '\n'
  else if c = 'r' then some '\r'
  else if c = 't' then some '\t'
  else if c = 'b' then some '\x08'
  else if c = 'f' then some '\x0c'
  else none

/-- Consume the body of a string literal after the opening quote,
accumulating characters in reverse; returns the string and the remainder
past the closing quote.  A raw control character (below `U+0020`) is a
syntax error, as in `JSON.parse`. -/
def parseStrBody (cs : List Char) (acc : List Char) : Option (String × List Char) :=
  match cs with
  | [] => none
  | '"' :: rest => some (String.mk acc.reverse, rest)
  | '\\' :: 'u' :: a :: b :: c :: d :: rest =>
    match hexDigitVal a, hexDigitVal b, hexDigitVal c, hexDigitVal d with
    | some va, some vb, some vc, some vd =>
        parseStrBody rest (Char.ofNat (((va * 16 + vb) * 16 + vc) * 16 + vd) :: acc)
    | _, _, _, _ => none
  | '\\' :: e :: rest =>
    match unescChar e with
    | some c => parseStrBody rest (c :: acc)
    | none => none
  | c :: rest => if 31 < c.toNat then parseStrBody rest (c :: acc) else none

/-- Consume a literal run of expected characters. -/
def dropLit : List Char → List Char → Option (List Char)
  | [], cs => some cs
  | p :: ps, c :: cs => if c = p then dropLit ps cs else none
  | _ :: _, [] => none

/-- Consume a non-empty run of digits and give its value (maximal munch). -/
def parseDigitRun (cs : List Char) : Option (Nat × List Char) :=
  let ds := cs.takeWhile isJsonDigit
  if ds.isEmpty then none
  else some (decDigitsVal ds, cs.dropWhile isJsonDigit)

/-- Consume the optional exponent part of a numeral: `e` or `E`, an
optional sign, and a non-empty digit run (leading zeros are allowed here,
as in the JSON grammar); without an exponent marker nothing is consumed.
`mant` and `e0` are the mantissa and exponent accumulated so far. -/
def parseJExp (mant : Nat) (e0 : Int) (cs : List Char) : Option (Nat × Int × List Char) :=
  match cs with
  | c :: r =>
      if c = 'e' ∨ c = 'E' then
        match r with
        | c2 :: r2 =>
            if c2 = '+' then
              (parseDigitRun r2).map (fun p => (mant, e0 + (p.1 : Int), p.2))
            else if c2 = '-' then
              (parseDigitRun r2).map (fun p => (mant, e0 - (p.1 : Int), p.2))
            else (parseDigitRun (c2 :: r2)).map (fun p => (mant, e0 + (p.1 : Int), p.2))
        | [] => none
      else some (mant, e0, c :: r)
  | [] => some (mant, e0, [])

/-- Consume the optional fraction part of a numeral (`.` and at least one
digit) followed by the optional exponent part.  `mant0` is the value of
the integer part's digits; a fraction appends its digits to the mantissa
and moves the decimal exponent left by their count. -/
def parseJFrac (mant0 : Nat) (cs : List Char) : Option (Nat × Int × List Char) :=
  match cs with
  | c :: r2 =>
      if c = '.' then
        let fs := r2.takeWhile isJsonDigit
        if fs.isEmpty then none
        else parseJExp (mant0 * 10 ^ fs.length + decDigitsVal fs) (-(fs.length : Int))
          (r2.dropWhile isJsonDigit)
      else parseJExp mant0 0 (c :: r2)
  | [] => parseJExp mant0 0 []

/-- Consume an unsigned JSON numeral: an integer part (`0`, or digits not
starting with `0`), then the optional fraction and exponent parts, per the
JSON number grammar. -/
def parseJNumCore (cs : List Char) : Option (Nat × Int × List Char) :=
  let ds := cs.takeWhile isJsonDigit
  if ds.isEmpty then none
  else if ds.head? = some '0' ∧ 1 < ds.length then none
  else parseJFrac (decDigitsVal ds) (cs.dropWhile isJsonDigit)

/-- Consume a JSON numeral: an optional minus sign and an unsigned
numeral. -/
def parseJNum (cs : List Char) : Option (Int × Int × List Char) :=
  match cs with
  | c :: r =>
      if c = '-' then (parseJNumCore r).map (fun p => (-(p.1 : Int), p.2.1, p.2.2))
      else (parseJNumCore (c :: r)).map (fun p => ((p.1 : Int), p.2.1, p.2.2))
  | [] => none

mutual

/-- Consume one JSON value.  `fuel` strictly decreases on every recursive
call; the top-level wrapper supplies more fuel than the input length, which
the round-trip theorems show is always sufficient. -/
def parseVal : Nat → List Char → Option (Json × List Char)
  | 0, _ => none
  | fuel + 1, cs =>
    match skipJsonWs cs with
    | [] => none
    | c :: r =>
      if c = 'n' then (dropLit ['u', 'l', 'l'] r).map (fun r' => (Json.null, r'))
      else if c = 't' then (dropLit ['r', 'u', 'e'] r).map (fun r' => (Json.bool true, r'))
      else if c = 'f' then (dropLit ['a', 'l', 's', 'e'] r).map (fun r' => (Json.bool false, r'))
      else if c = '"' then (parseStrBody r []).map (fun p => (Json.str p.1, p.2))
      else if c = '[' then
        match skipJsonWs r with
        | [] => none
        | c2 :: r2 =>
          if c2 = ']' then some (Json.arr [], r2)
          else (parseElems fuel (c2 :: r2)).map (fun p => (Json.arr p.1, p.2))
      else if c = '{' then
        match skipJsonWs r with
        | [] => none
        | c2 :: r2 =>
          if c2 = '}' then some (Json.obj [], r2)
          else (parseFields fuel (c2 :: r2)).map (fun p => (Json.obj p.1, p.2))
      else if c = '-' ∨ isJsonDigit c then
        (parseJNum (c :: r)).map (fun p => (Json.num p.1 p.2.1, p.2.2))
      else none

/-- Consume one or more comma-separated array elements and the closing
bracket. -/
def parseElems : Nat → List Char → Option (List Json × List Char)
  | 0, _ => none
  | fuel + 1, cs =>
    match parseVal fuel cs with
    | none => none
    | some (v, r) =>
      match skipJsonWs r with
      | [] => none
      | c :: r' =>
        if c = ',' then (parseElems fuel r').map (fun p => (v :: p.1, p.2))
        else if c = ']' then some ([v], r')
        else none

/-- Consume one or more comma-separated object members and the closing
brace. -/
def parseFields : Nat → List Char → Option (List (String × Json) × List Char)
  | 0, _ => none
  | fuel + 1, cs =>
    match skipJsonWs cs with
    | [] => none
    | c :: r =>
      if c = '"' then
        match parseStrBody r [] with
        | none => none
        | some (k, r1) =>
          match skipJsonWs r1 with
          | [] => none
          | c2 :: r2 =>
            if c2 = ':' then
              match parseVal fuel r2 with
              | none => none
              | some (v, r3) =>
                match skipJsonWs r3 with
                | [] => none
                | c3 :: r4 =>
                  if c3 = ',' then (parseFields fuel r4).map (fun p => ((k, v) :: p.1, p.2))
                  else if c3 = '}' then some ([(k, v)], r4)
                  else none
            else none
      else none

end

/-- The model of `JSON.parse`: `none` models a thrown `SyntaxError`.  The
whole input must be one value with only whitespace after it. -/
def jsonParse (s : String) : Option Json :=
  match parseVal (s.length + 1) s.data with
  | none => none
  | some (v, rest) => if (skipJsonWs rest).isEmpty then some v else none

/-! ### Number round-trip -/

/-- True when the remainder cannot extend a numeral: empty, or starting with
a character that is neither a digit nor `.`, `e`, `E`.  Every context in
which the printer emits a number continues with `,` or a newline, which
qualifies. -/
def numBoundary : List Char → Bool
  | [] => true
  | c :: _ => !(isJsonDigit c || c == '.' || c == 'e' || c == 'E')

/-! ### Json access, modelling JavaScript semantics -/

/-- The string payload of a JSON value, when it is a string. -/
def Json.asStr : Json → Option String
  | .str s => some s
  | _ => none

/-- The integer a JSON number denotes, when it denotes one.  The data
model's declared number fields are integers; a fractional value read into
one is outside the modeled fragment (the untyped source would store the
float as-is, which no claim distinguishes). -/
def Json.asInt : Json → Option Int
  | .num m e =>
      if e = 0 then some m
      else if 0 ≤ e then some (m * (10 : Int) ^ e.toNat)
      else if ((10 : Int) ^ (-e).toNat) ∣ m then some (m / (10 : Int) ^ (-e).toNat)
      else none
  | _ => none

/-- Whether a JSON value is an array, as `Array.isArray` reports. -/
def Json.isArr : Json → Bool
  | .arr _ => true
  | _ => false

/-- JavaScript truthiness of a JSON value: `null`, `false`, `0` and the
empty string are falsy; arrays and objects (even empty) are truthy. -/
def jsTruthy : Json → Bool
  | .null => false
  | .bool b => b
  | .num m _ => !(m == 0)
  | .str s => !(s == "")
  | .arr _ => true
  | .obj _ => true

/-- Truthiness of a possibly-absent value: an absent property reads as
`undefined`, which is falsy. -/
def jsTruthyOpt : Option Json → Bool
  | none => false
  | some j => jsTruthy j

/-- Property access on a parsed JSON value.  `JSON.parse` keeps the last
binding of a duplicated key, so the lookup takes the rightmost pair;
reading a property of a non-object primitive yields `undefined` (`none`).
Reading a property of `null` throws, which the one caller doing so
(`importMarkers`) handles via its surrounding try/catch. -/
def Json.getField (j : Json) (k : String) : Option Json :=
  match j with
  | .obj ms => (ms.reverse.find? (fun p => p.1 == k)).map (fun p => p.2)
  | _ => none

/-! ### The data model (src/types/index.ts) -/

/-- The closed enumeration of marker types. -/
inductive MarkerType where
  | continent : MarkerType
  | city : MarkerType
  | region : MarkerType
  | location : MarkerType
  | town : MarkerType
deriving DecidableEq, Repr

/-- The serialized name of a marker type. -/
def markerTypeStr : MarkerType → String
  | .continent => "continent"
  | .city => "city"
  | .region => "region"
  | .location => "location"
  | .town => "town"

/-- The marker type named by a string, if any. -/
def markerTypeOfStr (s : String) : Option MarkerType :=
  if s = "continent" then some .continent
  else if s = "city" then some .city
  else if s = "region" then some .region
  else if s = "location" then some .location
  else if s = "town" then some .town
  else none

/-- A point of interest (the `Marker` interface).  Coordinates are the
integer pixel coordinates of the data model. -/
structure Marker where
  id : String
  name : String
  type : MarkerType
  x : Int
  y : Int
  link : Option String := none
  visible : Option Bool := none
  description : Option String := none
  quickFacts : Option (List (String × String)) := none
deriving DecidableEq, Repr

/-- The distinguished current location of the map configuration. -/
structure CurrentLocation where
  name : String
  x : Int
  y : Int
  zoom : Int
deriving DecidableEq, Repr

/-- The map configuration (the `MapConfig` interface). -/
structure MapConfig where
  imageWidth : Int
  imageHeight : Int
  publishBaseUrl : String
  currentLocation : CurrentLocation
deriving DecidableEq, Repr

/-- Transient filter state (the `MarkerFilters` interface); the
type-visibility record is a function from marker types to booleans. -/
structure MarkerFilters where
  search : String
  types : MarkerType → Bool

/-- The JSON object a marker serializes to: the fields of the `Marker`
interface, with absent optional properties omitted, as `JSON.stringify`
omits properties an object does not have. -/
def markerToJson (m : Marker) : Json :=
  Json.obj ([("id", Json.str m.id), ("name", Json.str m.name),
    ("type", Json.str (markerTypeStr m.type)),
    ("x", Json.num m.x 0), ("y", Json.num m.y 0)]
    ++ (match m.link with
        | some l => [("link", Json.str l)]
        | none => [])
    ++ (match m.visible with
        | some b => [("visible", Json.bool b)]
        | none => [])
    ++ (match m.description with
        | some t => [("description", Json.str t)]
        | none => [])
    ++ (match m.quickFacts with
        | some fs => [("quickFacts", Json.obj (fs.map (fun p => (p.1, Json.str p.2))))]
        | none => []))

/-- The quick-facts record a JSON value denotes, reading each value as a
string. -/
def factsOfJson : Json → Option (List (String × String))
  | .obj ms => some (ms.map (fun p => (p.1, (p.2.asStr).getD "")))
  | _ => none

/-- A parsed JSON value read back as a `Marker`.  The TypeScript source
stores the parsed array with an unchecked type-level cast; this model reads
the declared fields (with inert defaults for absences), which is the
identity on every value `markerToJson` produces. -/
def jsonToMarker (j : Json) : Marker :=
  { id := ((j.getField "id").bind Json.asStr).getD ""
    name := ((j.getField "name").bind Json.asStr).getD ""
    type := (((j.getField "type").bind Json.asStr).bind markerTypeOfStr).getD .continent
    x := ((j.getField "x").bind Json.asInt).getD 0
    y := ((j.getField "y").bind Json.asInt).getD 0
    link := (j.getField "link").bind Json.asStr
    visible := (j.getField "visible").bind (fun v => match v with
      | Json.bool b => some b
      | _ => none)
    description := (j.getField "description").bind Json.asStr
    quickFacts := (j.getField "quickFacts").bind factsOfJson }

/-! ### The history engine (useUndoRedo, src/types/index.ts) -/

/-- The state held by `useUndoRedo`: the snapshot sequence, the cursor, the
`maxHistory` bound fixed at the hook call (default 50), and the initial
state the `?? initialState` read-fallback refers to.  Indices are naturals;
the `maxHistory - 1` clamp in `setState` matches the source whenever
`1 ≤ maxHistory`, which every theorem below assumes (the source is only
instantiated with the default 50). -/
structure UndoRedo (α : Type) where
  history : List α
  currentIndex : Nat
  maxHistory : Nat
  initialState : α

/-- Construction: `history = [initial]`, `currentIndex = 0`. -/
def UndoRedo.init (a : α) (maxHistory : Nat := 50) : UndoRedo α :=
  { history := [a], currentIndex := 0, maxHistory := maxHistory, initialState := a }

/-- The exposed state: `history[currentIndex] ?? initialState`. -/
def UndoRedo.stateOf (u : UndoRedo α) : α :=
  u.history.getD u.currentIndex u.initialState

/-- `setState`: drop the redo branch (`slice(0, currentIndex + 1)`), append
the new state, shift off the oldest entry if the bound is exceeded, and
advance the cursor clamped to `maxHistory - 1`. -/
def UndoRedo.setState (newState : α) (u : UndoRedo α) : UndoRedo α :=
  let newHistory := u.history.take (u.currentIndex + 1) ++ [newState]
  { u with
    history := if u.maxHistory < newHistory.length then newHistory.tail else newHistory
    currentIndex := min (u.currentIndex + 1) (u.maxHistory - 1) }

/-- `undo`: move the cursor back unless it is at the start. -/
def UndoRedo.undo (u : UndoRedo α) : UndoRedo α :=
  if 0 < u.currentIndex then { u with currentIndex := u.currentIndex - 1 } else u

/-- `redo`: move the cursor forward unless it is at the end. -/
def UndoRedo.redo (u : UndoRedo α) : UndoRedo α :=
  if u.currentIndex < u.history.length - 1 then { u with currentIndex := u.currentIndex + 1 }
  else u

/-- `canUndo = currentIndex > 0`. -/
def UndoRedo.canUndo (u : UndoRedo α) : Bool :=
  decide (0 < u.currentIndex)

/-- `canRedo = currentIndex < history.length - 1`. -/
def UndoRedo.canRedo (u : UndoRedo α) : Bool :=
  decide (u.currentIndex < u.history.length - 1)

/-- `clearHistory`: collapse to a single entry holding the current state.
Defined but never invoked anywhere in the repository. -/
def UndoRedo.clearHistory (u : UndoRedo α) : UndoRedo α :=
  { u with history := [u.stateOf], currentIndex := 0 }

/-! ### The marker repository (useMarkers, src/hooks/useMarkers.ts) -/

/-- The state the `useMarkers` hook closes over: the undo/redo history of
the marker list, the live map configuration, the two localStorage slots and
the last-fetch timestamp (epoch milliseconds), and the loading flag. -/
structure RepoState where
  markersHistory : UndoRedo (List Marker)
  mapConfig : MapConfig
  savedMarkers : List Marker
  savedConfig : MapConfig
  lastFetch : Option Int
  isLoading : Bool

/-- The live marker list. -/
def markersOf (st : RepoState) : List Marker :=
  st.markersHistory.stateOf

/-- `setMarkersState` plus the auto-save effect: every change to the
canonical list is pushed through the history and mirrored to the
localStorage slot. -/
def setMarkersState (ms : List Marker) (st : RepoState) : RepoState :=
  { st with markersHistory := st.markersHistory.setState ms, savedMarkers := ms }

/-- The `config` object `exportMarkers` builds: `imageWidth`, `imageHeight`
and `currentLocation` only, not the full configuration. -/
def exportConfigJson (cfg : MapConfig) : Json :=
  Json.obj [("imageWidth", Json.num cfg.imageWidth 0),
    ("imageHeight", Json.num cfg.imageHeight 0),
    ("currentLocation", Json.obj [("name", Json.str cfg.currentLocation.name),
      ("x", Json.num cfg.currentLocation.x 0),
      ("y", Json.num cfg.currentLocation.y 0),
      ("zoom", Json.num cfg.currentLocation.zoom 0)])]

/-- The export document: `config` and the full current marker list. -/
def exportDoc (markers : List Marker) (cfg : MapConfig) : Json :=
  Json.obj [("config", exportConfigJson cfg),
    ("markers", Json.arr (markers.map markerToJson))]

/-- `exportMarkers`: the pretty-printed export document. -/
def exportMarkers (st : RepoState) : String :=
  stringify2 (exportDoc (markersOf st) st.mapConfig)

/-- The result value `importMarkers` returns. -/
inductive ImportResult where
  | ok : ImportResult
  | err : String → ImportResult
deriving DecidableEq, Repr

/-- The current location a JSON value denotes, reading the declared fields
with inert defaults (the typed reading of the untyped spread). -/
def locOfJson (j : Json) : Option CurrentLocation :=
  match j with
  | .obj _ => some { name := ((j.getField "name").bind Json.asStr).getD ""
                     x := ((j.getField "x").bind Json.asInt).getD 0
                     y := ((j.getField "y").bind Json.asInt).getD 0
                     zoom := ((j.getField "zoom").bind Json.asInt).getD 0 }
  | _ => none

/-- The `{...prev, ...imported.config}` spread: each declared configuration
field present in the imported object replaces the previous value, absent
fields keep it.  (A present field of the wrong runtime type would be stored
as-is by the untyped source; the typed model keeps the previous value,
which no claim distinguishes.) -/
def mergeConfig (prev : MapConfig) (c : Json) : MapConfig :=
  { imageWidth := ((c.getField "imageWidth").bind Json.asInt).getD prev.imageWidth
    imageHeight := ((c.getField "imageHeight").bind Json.asInt).getD prev.imageHeight
    publishBaseUrl := ((c.getField "publishBaseUrl").bind Json.asStr).getD prev.publishBaseUrl
    currentLocation := ((c.getField "currentLocation").bind locOfJson).getD
      prev.currentLocation }

/-- The markers-only fallback branch of `importMarkers` (backwards
compatibility), and the failure for anything that is neither shape. -/
def importArrayOnly (v : Json) (st : RepoState) : RepoState × ImportResult :=
  match v with
  | Json.arr raw => (setMarkersState (raw.map jsonToMarker) st, .ok)
  | _ => (st, .err "Invalid format: expected markers array or \x7bconfig, markers\x7d object")

/-- `importMarkers`: parse the document; a parse failure — or the `null`
document, whose `.config` property access throws inside the same
`try`/`catch` — reports `Invalid JSON`.  An object with a truthy `config`
and an array `markers` replaces the marker list (through the history) and,
when `config.currentLocation` is truthy, merges `config` into both the live
and the persisted configuration.  A bare array replaces the marker list
only.  Anything else fails with the unrecognized-shape diagnostic, leaving
the state untouched. -/
def importMarkers (json : String) (st : RepoState) : RepoState × ImportResult :=
  match jsonParse json with
  | none => (st, .err "Invalid JSON")
  | some Json.null => (st, .err "Invalid JSON")
  | some v =>
    match v.getField "config", v.getField "markers" with
    | some c, some (Json.arr raw) =>
      if jsTruthy c then
        let st1 := setMarkersState (raw.map jsonToMarker) st
        let st2 :=
          if jsTruthyOpt (c.getField "currentLocation") then
            { st1 with mapConfig := mergeConfig st1.mapConfig c
                       savedConfig := mergeConfig st1.savedConfig c }
          else st1
        (st2, .ok)
      else importArrayOnly v st
    | _, _ => importArrayOnly v st

/-- Refresh data if older than 5 minutes. -/
def CACHE_DURATION : Int := 5 * 60 * 1000

/-- The early-return throttle of `refreshFromSource`: a recorded last-fetch
timestamp younger than `CACHE_DURATION`. -/
def refreshThrottled (st : RepoState) (now : Int) : Bool :=
  match st.lastFetch with
  | some t => decide (now - t < CACHE_DURATION)
  | none => false

/-- `refreshFromSource` on a fetch that succeeds with `fetched`: skip when
throttled and not forced; otherwise replace the live and persisted marker
list (through `setMarkersState`, so the history grows) and configuration,
and record the fetch timestamp.  The loading flag is set and then cleared
in the `finally`, leaving `false`. -/
def refreshFromSource (force : Bool) (now : Int) (fetched : List Marker × MapConfig)
    (st : RepoState) : RepoState :=
  if !force && refreshThrottled st now then st
  else
    { st with
      savedMarkers := fetched.1
      markersHistory := st.markersHistory.setState fetched.1
      savedConfig := fetched.2
      mapConfig := fetched.2
      lastFetch := some now
      isLoading := false }

/-- Whitespace as JavaScript string functions treat it. -/
def jsWhitespace (c : Char) : Bool :=
  c == ' ' || c == '\t' || c == '\n' || c == '\r' || c == '\x0b' || c == '\x0c'

/-- `String.prototype.trim`: strip whitespace from both ends. -/
def jsTrim (s : String) : String :=
  String.mk (((s.data.dropWhile jsWhitespace).reverse.dropWhile jsWhitespace).reverse)

/-- The filter pipeline: filter by enabled types; if the debounced search
string is empty (falsy) or shorter than two characters after trimming,
return the type-filtered list unchanged; otherwise hand the type-filtered
list and the trimmed query to the fuzzy engine (Fuse.js, an external
library, passed here as a parameter). -/
def filteredMarkers (fuzzySearch : List Marker → String → List Marker)
    (markers : List Marker) (filters : MarkerFilters) (debouncedSearch : String) :
    List Marker :=
  let typeFiltered := markers.filter (fun m => filters.types m.type)
  if debouncedSearch = "" ∨ (jsTrim debouncedSearch).length < 2 then typeFiltered
  else fuzzySearch typeFiltered (jsTrim debouncedSearch)

/-! ### Coordinate transform (utils/coordinates.ts) -/

/-- `toLeaflet`: image pixels to display coordinates, `[H - y, x]`. -/
def toLeaflet (imageHeight : ℚ) (x y : ℚ) : ℚ × ℚ :=
  (imageHeight - y, x)

/-- `fromLeaflet`: display coordinates back to image pixels,
`(round(lng), round(H - lat))`; `round` is round-half-up as `Math.round`. -/
def fromLeaflet (imageHeight : ℚ) (lat lng : ℚ) : Int × Int :=
  (round lng, round (imageHeight - lat))

/-! ### Share-link codec (parseShareUrl) -/

/-- The view state carried by a share link. -/
structure ShareParams where
  x : ℚ
  y : ℚ
  zoom : ℚ
  marker : Option String
deriving DecidableEq

/-- `URLSearchParams.get`: the first value bound to the key, or null. -/
def jsGetParam (q : List (String × String)) (k : String) : Option String :=
  (q.find? (fun p => p.1 == k)).map (fun p => p.2)

/-- JavaScript falsiness of `string | null`: null and the empty string. -/
def strFalsy : Option String → Bool
  | none => true
  | some s => s == ""

/-- The exponent part of a `parseFloat` numeral: an optional sign and
digits; with no digits the exponent marker is not part of the number and
contributes nothing. -/
def expDigits (r : List Char) : Int :=
  let (eneg, r1) : Bool × List Char :=
    match r with
    | '-' :: t => (true, t)
    | '+' :: t => (false, t)
    | _ => (false, r)
  let ds := r1.takeWhile isJsonDigit
  if ds.isEmpty then 0
  else if eneg then -(decDigitsVal ds : Int) else (decDigitsVal ds : Int)

/-- The rational a parsed decimal denotes: sign, integer digits, fraction
digits, decimal exponent. -/
def floatOfParts (neg : Bool) (intDs fracDs : List Char) (expVal : Int) : ℚ :=
  let mant : ℚ := (decDigitsVal intDs : ℚ) + (decDigitsVal fracDs : ℚ) / (10 : ℚ) ^ fracDs.length
  (if neg then -mant else mant) * (10 : ℚ) ^ expVal

/-- `parseFloat`: skip leading whitespace, then read the longest prefix of
the form sign, digits, optional fraction, optional exponent; `none` models
`NaN` (no digits at all).  An `Infinity` prefix, which the share codec's
range validation always rejects, is modeled as `none` — the codec's result
is `none` either way. -/
def jsParseFloat (s : String) : Option ℚ :=
  let cs := s.data.dropWhile jsWhitespace
  let (neg, cs1) : Bool × List Char :=
    match cs with
    | '-' :: r => (true, r)
    | '+' :: r => (false, r)
    | _ => (false, cs)
  let intDs := cs1.takeWhile isJsonDigit
  let cs2 := cs1.dropWhile isJsonDigit
  let (fracDs, cs3) : List Char × List Char :=
    match cs2 with
    | '.' :: r => (r.takeWhile isJsonDigit, r.dropWhile isJsonDigit)
    | _ => ([], cs2)
  if intDs.isEmpty && fracDs.isEmpty then none
  else
    let expVal : Int :=
      match cs3 with
      | 'e' :: r => expDigits r
      | 'E' :: r => expDigits r
      | _ => 0
    some (floatOfParts neg intDs fracDs expVal)

/-- `parseShareUrl` over the query parameters of the current URL: require
`x`, `y`, `z` present and non-empty, parse all three, reject `NaN`, then
validate `0 ≤ x,y ≤ 20000` and `-5 ≤ z ≤ 5`; a present non-empty `marker`
is carried through, an empty one is dropped by the `if (marker)` guard. -/
def parseShareUrl (q : List (String × String)) : Option ShareParams :=
  let xs := jsGetParam q "x"
  let ys := jsGetParam q "y"
  let zs := jsGetParam q "z"
  if strFalsy xs || strFalsy ys || strFalsy zs then none
  else
    match jsParseFloat (xs.getD ""), jsParseFloat (ys.getD ""), jsParseFloat (zs.getD "") with
    | some px, some py, some pz =>
      if px < 0 ∨ 20000 < px ∨ py < 0 ∨ 20000 < py then none
      else if pz < -5 ∨ 5 < pz then none
      else
        some { x := px, y := py, zoom := pz
               marker := match jsGetParam q "marker" with
                 | some s => if s = "" then none else some s
                 | none => none }
    | _, _, _ => none

/-- Push a sequence of states in order. -/
def pushAll (ss : List α) (u : UndoRedo α) : UndoRedo α :=
  ss.foldl (fun acc s => acc.setState s) u

/-- An operation of the history engine. -/
inductive HistOp (α : Type) where
  | set : α → HistOp α
  | stepBack : HistOp α
  | stepFwd : HistOp α
  | clear : HistOp α

/-- Apply one operation. -/
def applyOp : HistOp α → UndoRedo α → UndoRedo α
  | .set a, u => u.setState a
  | .stepBack, u => u.undo
  | .stepFwd, u => u.redo
  | .clear, u => u.clearHistory

/-- Apply a sequence of operations in order. -/
def applyOps (ops : List (HistOp α)) (u : UndoRedo α) : UndoRedo α :=
  ops.foldl (fun acc op => applyOp op acc) u

/-! ### Concrete fixtures for witnesses and counterexamples -/

/-- A demo marker. -/
def mDemo : Marker :=
  { id := "m1", name := "Treston", type := .city, x := 100, y := 200 }

/-- A demo configuration. -/
def cfgDemo : MapConfig :=
  { imageWidth := 1000, imageHeight := 800, publishBaseUrl := "https://example.org/",
    currentLocation := { name := "Start", x := 10, y := 20, zoom := 0 } }

/-- A demo repository state: one marker, a fresh single-entry history. -/
def stDemo : RepoState :=
  { markersHistory := UndoRedo.init [mDemo], mapConfig := cfgDemo,
    savedMarkers := [mDemo], savedConfig := cfgDemo, lastFetch := none, isLoading := false }

/-- A marker as a remote refresh would deliver it. -/
def mFresh : Marker :=
  { id := "f1", name := "Fresh", type := .town, x := 5, y := 6 }

/-- A configuration as a remote refresh would deliver it. -/
def cfgFresh : MapConfig :=
  { imageWidth := 2000, imageHeight := 1600, publishBaseUrl := "https://example.org/",
    currentLocation := { name := "Center", x := 1, y := 2, zoom := 1 } }

/-- The end-to-end import document without a `config` field. -/
def importDocNoConfig : String :=
  "\x7b\"markers\":[\x7b\"id\":\"1\",\"name\":\"A\",\"type\":\"town\",\"x\":1,\"y\":1\x7d]\x7d"

/-- The object-shape condition of `importMarkers` as one boolean: truthy
`config`, truthy `markers`, and `Array.isArray(markers)`. -/
def hasImportObjectShape (v : Json) : Bool :=
  jsTruthyOpt (v.getField "config") && jsTruthyOpt (v.getField "markers") &&
    (match v.getField "markers" with
     | some m => m.isArr
     | none => false)

/-- The `if (marker)` guard applied to the optional marker parameter: a
non-empty value passes through, an empty one is dropped. -/
def dropEmptyMarker : Option String → Option String
  | some s => if s = "" then none else some s
  | none => none

/-- A query with `z` missing. -/
def qMissingZ : List (String × String) := [("x", "1"), ("y", "2")]

/-- A query with `x` out of range. -/
def qBigX : List (String × String) := [("x", "25000"), ("y", "0"), ("z", "0")]

/-- A valid query with a non-empty marker. -/
def qShare : List (String × String) := [("x", "3"), ("y", "4"), ("z", "1"), ("marker", "home")]

/-- A valid query whose marker parameter is present but empty. -/
def qEmptyMarker : List (String × String) :=
  [("x", "1"), ("y", "2"), ("z", "0"), ("marker", "")]

/-- A type-filter that admits every marker type. -/
def filtersAll : MarkerFilters :=
  { search := "", types := fun _ => true }

/-- A stand-in fuzzy engine that returns nothing, to witness that it is
not consulted on short queries. -/
def fuzzNone : List Marker → String → List Marker := fun _ _ => []

/-- A sample operation sequence for the history engine. -/
def opsDemo : List (HistOp ℕ) :=
  [HistOp.set 1, HistOp.stepBack, HistOp.set 2, HistOp.stepFwd, HistOp.clear]

/-! ### Whitespace lemmas -/

/-- Skipping whitespace passes over any all-whitespace prefix. -/
theorem skipJsonWs_append (w x : List Char) (h : ∀ c ∈ w, isJsonWs c = true) :
    skipJsonWs (w ++ x) = skipJsonWs x := by
  induction w with
  | nil => rfl
  | cons c cs ih =>
      have hc : isJsonWs c = true := h c (by simp)
      simp only [List.cons_append, skipJsonWs, hc, if_true]
      exact ih (fun d hd => h d (by simp [hd]))

/-- Newline-plus-indent is all whitespace. -/
theorem indentChars_allWs (d : Nat) : ∀ c ∈ indentChars d, isJsonWs c = true := by
  intro c hc
  simp only [indentChars, List.mem_cons, List.mem_replicate] at hc
  rcases hc with rfl | ⟨-, rfl⟩ <;> rfl

/-- Skipping whitespace does not touch a non-whitespace head. -/
theorem skipJsonWs_cons (c : Char) (t : List Char) (h : isJsonWs c = false) :
    skipJsonWs (c :: t) = c :: t := by
  simp [skipJsonWs, h]

/-! ### Decimal digit lemmas -/

/-- Characters printed for a natural number are decimal digits. -/
theorem natDecChars_digits (n : Nat) : ∀ c ∈ natDecChars n, isJsonDigit c = true := by
  induction n using Nat.strongRecOn with
  | ind n ih =>
      intro c hc
      rw [natDecChars] at hc
      by_cases h : n < 10
      · simp only [dif_pos h, List.mem_singleton] at hc
        subst hc
        have : ∀ k, k < 10 → isJsonDigit (decDigitChar k) = true := by decide
        exact this n h
      · simp only [dif_neg h, List.mem_append, List.mem_singleton] at hc
        rcases hc with hc | rfl
        · exact ih (n / 10) (Nat.div_lt_self (by omega) (by omega)) c hc
        · have : ∀ k, k < 10 → isJsonDigit (decDigitChar k) = true := by decide
          exact this (n % 10) (Nat.mod_lt _ (by omega))

/-- The printed digits of a natural number are never empty. -/
theorem natDecChars_ne_nil (n : Nat) : natDecChars n ≠ [] := by
  rw [natDecChars]
  by_cases h : n < 10 <;> simp [h]

/-- Folding the digit characters back recovers the number. -/
theorem decDigitsVal_natDecChars (n : Nat) : decDigitsVal (natDecChars n) = n := by
  have hval : ∀ k, k < 10 → (decDigitChar k).toNat - 48 = k := by decide
  induction n using Nat.strongRecOn with
  | ind n ih =>
      rw [natDecChars]
      by_cases h : n < 10
      · simp only [dif_pos h, decDigitsVal, List.foldl_cons, List.foldl_nil]
        rw [hval n h]
        omega
      · simp only [dif_neg h, decDigitsVal, List.foldl_append, List.foldl_cons, List.foldl_nil]
        have hrec := ih (n / 10) (Nat.div_lt_self (by omega) (by omega))
        simp only [decDigitsVal] at hrec
        rw [hrec, hval (n % 10) (Nat.mod_lt _ (by omega))]
        omega

/-- The printed digits of a natural number start with a digit character. -/
theorem natDecChars_head (n : Nat) :
    ∃ c t, natDecChars n = c :: t ∧ isJsonDigit c = true := by
  match h : natDecChars n with
  | [] => exact absurd h (natDecChars_ne_nil n)
  | c :: t =>
      exact ⟨c, t, rfl, natDecChars_digits n c (by rw [h]; exact List.mem_cons_self c t)⟩

/-- A positive number's printed digits do not start with `'0'`. -/
theorem natDecChars_head_ne_zero (n : Nat) (hn : 1 ≤ n) :
    ∀ t, natDecChars n ≠ '0' :: t := by
  induction n using Nat.strongRecOn with
  | ind n ih =>
      intro t ht
      rw [natDecChars] at ht
      by_cases h : n < 10
      · rw [dif_pos h] at ht
        have hc : decDigitChar n = '0' := (List.cons_eq_cons.mp ht).1
        have hz : ∀ k, k < 10 → decDigitChar k = '0' → k = 0 := by decide
        have hn0 := hz n h hc
        omega
      · rw [dif_neg h] at ht
        obtain ⟨c0, t0, h0, -⟩ := natDecChars_head (n / 10)
        rw [h0, List.cons_append] at ht
        have hc0 : c0 = '0' := (List.cons_eq_cons.mp ht).1
        exact ih (n / 10) (Nat.div_lt_self (by omega) (by omega)) (by omega) t0
          (by rw [h0, hc0])

/-- At most `k` digits are printed for a number below `10 ^ k`. -/
theorem natDecChars_length_le (n : Nat) : ∀ k : Nat, 1 ≤ k → n < 10 ^ k →
    (natDecChars n).length ≤ k := by
  induction n using Nat.strongRecOn with
  | ind n ih =>
      intro k hk hn
      rw [natDecChars]
      by_cases h : n < 10
      · rw [dif_pos h]
        simpa using hk
      · rw [dif_neg h]
        have hk2 : 2 ≤ k := by
          by_contra hcon
          have hk1 : k = 1 := by omega
          rw [hk1, pow_one] at hn
          omega
        have h10 : (10 : Nat) ^ k = 10 ^ (k - 1) * 10 := by
          rw [← pow_succ]
          congr 1
          omega
        have hdiv : n / 10 < 10 ^ (k - 1) := by
          rw [Nat.div_lt_iff_lt_mul (by omega)]
          omega
        have hlen := ih (n / 10) (Nat.div_lt_self (by omega) (by omega)) (k - 1)
          (by omega) hdiv
        simp only [List.length_append, List.length_singleton]
        omega

/-- Folding digit characters from an arbitrary accumulator. -/
theorem decDigitsVal_foldl_acc (b : List Char) : ∀ acc : Nat,
    b.foldl (fun acc c => 10 * acc + (c.toNat - 48)) acc
      = acc * 10 ^ b.length + decDigitsVal b := by
  induction b with
  | nil =>
      intro acc
      simp [decDigitsVal]
  | cons c t ih =>
      intro acc
      show t.foldl _ (10 * acc + (c.toNat - 48))
          = acc * 10 ^ (c :: t).length + decDigitsVal (c :: t)
      rw [ih (10 * acc + (c.toNat - 48))]
      have h2 : decDigitsVal (c :: t)
          = (10 * 0 + (c.toNat - 48)) * 10 ^ t.length + decDigitsVal t := by
        show t.foldl _ (10 * 0 + (c.toNat - 48)) = _
        rw [ih (10 * 0 + (c.toNat - 48))]
      rw [h2, List.length_cons, pow_succ]
      ring

/-- The digit value of concatenated runs. -/
theorem decDigitsVal_append (a b : List Char) :
    decDigitsVal (a ++ b) = decDigitsVal a * 10 ^ b.length + decDigitsVal b := by
  show (a ++ b).foldl _ 0 = _
  rw [List.foldl_append]
  exact decDigitsVal_foldl_acc b _

/-- Leading zero characters contribute nothing to the digit value. -/
theorem decDigitsVal_replicate_zero (p : Nat) (b : List Char) :
    decDigitsVal (List.replicate p '0' ++ b) = decDigitsVal b := by
  rw [decDigitsVal_append]
  have h0 : decDigitsVal (List.replicate p '0') = 0 := by
    induction p with
    | zero => rfl
    | succ q ih =>
        rw [List.replicate_succ]
        show (List.replicate q '0').foldl _ (10 * 0 + ('0'.toNat - 48)) = 0
        exact ih
  rw [h0]
  simp

/-- Zero characters are digit characters. -/
theorem replicate_zero_digits (p : Nat) :
    ∀ c ∈ List.replicate p '0', isJsonDigit c = true := by
  intro c hc
  rw [List.eq_of_mem_replicate hc]
  decide

/-- Splitting a digit run from a remainder that does not start with a
digit. -/
theorem takeWhile_digit_split (ds rest : List Char)
    (hds : ∀ c ∈ ds, isJsonDigit c = true)
    (hrest : ∀ c t, rest = c :: t → isJsonDigit c = false) :
    (ds ++ rest).takeWhile isJsonDigit = ds
      ∧ (ds ++ rest).dropWhile isJsonDigit = rest := by
  induction ds with
  | nil =>
      cases rest with
      | nil => exact ⟨rfl, rfl⟩
      | cons c t =>
          have hc := hrest c t rfl
          exact ⟨by simp [List.takeWhile_cons, hc], by simp [List.dropWhile_cons, hc]⟩
  | cons c t ih =>
      have hc := hds c (by simp)
      obtain ⟨h1, h2⟩ := ih (fun d hd => hds d (by simp [hd]))
      constructor
      · simp only [List.cons_append, List.takeWhile_cons, hc, if_true]
        rw [h1]
      · simp only [List.cons_append, List.dropWhile_cons, hc, if_true]
        exact h2

/-- A digit run followed by a boundary is exactly what `takeWhile` keeps. -/
theorem takeWhile_digit_boundary (ds rest : List Char)
    (hds : ∀ c ∈ ds, isJsonDigit c = true) (hrest : numBoundary rest = true) :
    (ds ++ rest).takeWhile isJsonDigit = ds := by
  induction ds with
  | nil =>
      cases rest with
      | nil => rfl
      | cons c t =>
          simp only [numBoundary, Bool.not_eq_true', Bool.or_eq_false_iff] at hrest
          simp [List.takeWhile_cons, hrest.1.1.1]
  | cons c t ih =>
      have hc := hds c (by simp)
      simp only [List.cons_append, List.takeWhile_cons, hc, if_true]
      rw [ih (fun d hd => hds d (by simp [hd]))]

/-- A digit run followed by a boundary is exactly what `dropWhile` drops. -/
theorem dropWhile_digit_boundary (ds rest : List Char)
    (hds : ∀ c ∈ ds, isJsonDigit c = true) (hrest : numBoundary rest = true) :
    (ds ++ rest).dropWhile isJsonDigit = rest := by
  induction ds with
  | nil =>
      cases rest with
      | nil => rfl
      | cons c t =>
          simp only [numBoundary, Bool.not_eq_true', Bool.or_eq_false_iff] at hrest
          simp [List.dropWhile_cons, hrest.1.1.1]
  | cons c t ih =>
      have hc := hds c (by simp)
      simp only [List.cons_append, List.dropWhile_cons, hc, if_true]
      exact ih (fun d hd => hds d (by simp [hd]))

/-- A boundary head is not a digit, nor `.`, `e`, `E`. -/
theorem numBoundary_facts (c : Char) (t : List Char) (h : numBoundary (c :: t) = true) :
    isJsonDigit c = false ∧ c ≠ '.' ∧ c ≠ 'e' ∧ c ≠ 'E' := by
  simp only [numBoundary, Bool.not_eq_true', Bool.or_eq_false_iff, beq_eq_false_iff_ne] at h
  exact ⟨h.1.1.1, h.1.1.2, h.1.2, h.2⟩

/-- Parsing a printed digit run recovers its value, for any remainder that
cannot extend the numeral. -/
theorem parseDigitRun_natDecChars (n : Nat) (rest : List Char)
    (hrest : numBoundary rest = true) :
    parseDigitRun (natDecChars n ++ rest) = some (n, rest) := by
  have htake := takeWhile_digit_boundary (natDecChars n) rest (natDecChars_digits _) hrest
  have hdrop := dropWhile_digit_boundary (natDecChars n) rest (natDecChars_digits _) hrest
  simp only [parseDigitRun, htake, hdrop, decDigitsVal_natDecChars]
  rw [if_neg (by simp [List.isEmpty_eq_true, natDecChars_ne_nil n])]

/-- Without an exponent marker, the exponent parser consumes nothing. -/
theorem parseJExp_noExp (mant : Nat) (e0 : Int) (rest : List Char)
    (hrest : numBoundary rest = true) :
    parseJExp mant e0 rest = some (mant, e0, rest) := by
  cases rest with
  | nil => rfl
  | cons c t =>
      obtain ⟨-, -, he, hE⟩ := numBoundary_facts c t hrest
      simp only [parseJExp]
      rw [if_neg (by simp [he, hE])]

/-- An exponent marker followed by printed digits and a boundary yields
the digits' value. -/
theorem parseJExp_digits (mant : Nat) (e0 : Int) (p : Nat) (mk : Char)
    (hmk : mk = 'e' ∨ mk = 'E') (rest : List Char)
    (hrest : numBoundary rest = true) :
    parseJExp mant e0 (mk :: (natDecChars p ++ rest))
      = some (mant, e0 + (p : Int), rest) := by
  obtain ⟨c0, t0, h0, hc0⟩ := natDecChars_head p
  have hplus : c0 ≠ '+' := fun h => absurd hc0 (by rw [h]; decide)
  have hminus : c0 ≠ '-' := fun h => absurd hc0 (by rw [h]; decide)
  rw [show natDecChars p ++ rest = c0 :: (t0 ++ rest) from by rw [h0]; rfl]
  simp only [parseJExp]
  rw [if_pos hmk, if_neg hplus, if_neg hminus,
    show c0 :: (t0 ++ rest) = natDecChars p ++ rest from by rw [h0]; rfl,
    parseDigitRun_natDecChars p rest hrest]
  rfl

/-- Without a decimal point, the fraction parser passes straight to the
exponent parser; with a boundary remainder it consumes nothing. -/
theorem parseJFrac_noDot (mant0 : Nat) (rest : List Char)
    (hrest : numBoundary rest = true) :
    parseJFrac mant0 rest = some (mant0, 0, rest) := by
  cases rest with
  | nil => rfl
  | cons c t =>
      obtain ⟨-, hdot, -, -⟩ := numBoundary_facts c t hrest
      simp only [parseJFrac]
      rw [if_neg hdot]
      exact parseJExp_noExp mant0 0 (c :: t) hrest

/-- A decimal point, printed fraction digits and an exponent-free boundary
remainder extend the mantissa and set the exponent. -/
theorem parseJFrac_dot (mant0 r k : Nat) (hk : 1 ≤ k) (hr : r < 10 ^ k)
    (rest : List Char) (hrest : numBoundary rest = true) :
    parseJFrac mant0
        ('.' :: ((List.replicate (k - (natDecChars r).length) '0' ++ natDecChars r)
          ++ rest))
      = some (mant0 * 10 ^ k + r, -(k : Int), rest) := by
  have hlenr := natDecChars_length_le r k hk hr
  have hF : ∀ c ∈ List.replicate (k - (natDecChars r).length) '0' ++ natDecChars r,
      isJsonDigit c = true := by
    intro c hc
    rcases List.mem_append.mp hc with hc | hc
    · exact replicate_zero_digits _ c hc
    · exact natDecChars_digits r c hc
  have hnd : ∀ c t, rest = c :: t → isJsonDigit c = false := by
    intro c t h
    exact (numBoundary_facts c t (h ▸ hrest)).1
  obtain ⟨htake, hdrop⟩ := takeWhile_digit_split _ rest hF hnd
  have hlenF : (List.replicate (k - (natDecChars r).length) '0'
      ++ natDecChars r).length = k := by
    simp only [List.length_append, List.length_replicate]
    omega
  have hvalF : decDigitsVal (List.replicate (k - (natDecChars r).length) '0'
      ++ natDecChars r) = r := by
    rw [decDigitsVal_replicate_zero, decDigitsVal_natDecChars]
  have hne : (List.replicate (k - (natDecChars r).length) '0'
      ++ natDecChars r).isEmpty = false := by
    rw [List.isEmpty_eq_false_iff_exists_mem]
    obtain ⟨c0, t0, h0, -⟩ := natDecChars_head r
    exact ⟨c0, List.mem_append.mpr (Or.inr (by rw [h0]; exact List.mem_cons_self c0 t0))⟩
  simp only [parseJFrac]
  rw [if_pos trivial]
  simp only [htake, hdrop, hne, Bool.false_eq_true, if_false, hlenF, hvalF]
  exact parseJExp_noExp _ _ rest hrest

/-- Parsing starts with the integer part's printed digits: the empty and
leading-zero guards pass and the remainder goes to the fraction parser. -/
theorem parseJNumCore_split (n : Nat) (tail : List Char)
    (htail : ∀ c t, tail = c :: t → isJsonDigit c = false) :
    parseJNumCore (natDecChars n ++ tail) = parseJFrac n tail := by
  obtain ⟨htake, hdrop⟩ := takeWhile_digit_split (natDecChars n) tail
    (natDecChars_digits n) htail
  have hlz : ¬((natDecChars n).head? = some '0' ∧ 1 < (natDecChars n).length) := by
    rintro ⟨hh, hl⟩
    by_cases h10 : n < 10
    · rw [natDecChars, dif_pos h10] at hl
      simp at hl
    · cases hnd : natDecChars n with
      | nil => exact absurd hnd (natDecChars_ne_nil n)
      | cons c0 t0 =>
          rw [hnd] at hh
          have hc0 : c0 = '0' := by simpa using hh
          exact natDecChars_head_ne_zero n (by omega) t0 (by rw [hnd, hc0])
  simp only [parseJNumCore, htake, hdrop, decDigitsVal_natDecChars]
  rw [if_neg (by simp [List.isEmpty_eq_true, natDecChars_ne_nil n]), if_neg hlz]

/-- The head of a numeral's printed form is a minus sign or a digit. -/
theorem numChars_head (m e : Int) :
    ∃ c t, numChars m e = c :: t ∧ (c = '-' ∨ isJsonDigit c = true) := by
  by_cases he : e = 0
  · by_cases hm : m < 0
    · exact ⟨'-', natDecChars m.natAbs, by simp [numChars, he, intDecChars, hm],
        Or.inl rfl⟩
    · obtain ⟨c0, t0, h0, hc0⟩ := natDecChars_head m.natAbs
      exact ⟨c0, t0, by simp [numChars, he, intDecChars, hm, h0], Or.inr hc0⟩
  · by_cases hpos : 0 < e
    · by_cases hm : m < 0
      · refine ⟨'-', natDecChars m.natAbs ++ 'e' :: natDecChars e.toNat, ?_, Or.inl rfl⟩
        simp [numChars, he, hpos, intDecChars, hm]
      · obtain ⟨c0, t0, h0, hc0⟩ := natDecChars_head m.natAbs
        refine ⟨c0, t0 ++ 'e' :: natDecChars e.toNat, ?_, Or.inr hc0⟩
        simp [numChars, he, hpos, intDecChars, hm, h0]
    · by_cases hm : m < 0
      · have h : numChars m e = '-' :: (natDecChars (m.natAbs / 10 ^ (-e).toNat)
            ++ '.' :: (List.replicate ((-e).toNat
                - (natDecChars (m.natAbs % 10 ^ (-e).toNat)).length) '0'
              ++ natDecChars (m.natAbs % 10 ^ (-e).toNat))) := by
          simp [numChars, he, hpos, hm]
        exact ⟨'-', _, h, Or.inl rfl⟩
      · obtain ⟨c0, t0, h0, hc0⟩ := natDecChars_head (m.natAbs / 10 ^ (-e).toNat)
        have h : numChars m e = c0 :: (t0
            ++ '.' :: (List.replicate ((-e).toNat
                - (natDecChars (m.natAbs % 10 ^ (-e).toNat)).length) '0'
              ++ natDecChars (m.natAbs % 10 ^ (-e).toNat))) := by
          simp [numChars, he, hpos, hm, h0]
        exact ⟨c0, _, h, Or.inr hc0⟩

/-- Parsing the printed form of a numeral recovers its mantissa and
exponent, for any remainder that cannot extend the numeral. -/
theorem parseJNum_numChars (m e : Int) (rest : List Char)
    (hrest : numBoundary rest = true) :
    parseJNum (numChars m e ++ rest) = some (m, e, rest) := by
  have hndB : ∀ c t, rest = c :: t → isJsonDigit c = false := by
    intro c t h
    exact (numBoundary_facts c t (h ▸ hrest)).1
  by_cases he : e = 0
  · subst he
    by_cases hm : m < 0
    · rw [show numChars m 0 ++ rest = '-' :: (natDecChars m.natAbs ++ rest) from by
        simp [numChars, intDecChars, hm]]
      simp only [parseJNum]
      rw [if_pos trivial, parseJNumCore_split m.natAbs rest hndB,
        parseJFrac_noDot m.natAbs rest hrest]
      show some ((-(m.natAbs : Int), (0 : Int), rest)) = _
      rw [show -((m.natAbs : Nat) : Int) = m from by omega]
    · obtain ⟨c0, t0, h0, hc0⟩ := natDecChars_head m.natAbs
      have hcm : c0 ≠ '-' := fun h => absurd hc0 (by rw [h]; decide)
      rw [show numChars m 0 ++ rest = c0 :: (t0 ++ rest) from by
        simp [numChars, intDecChars, hm, h0]]
      simp only [parseJNum]
      rw [if_neg hcm,
        show c0 :: (t0 ++ rest) = natDecChars m.natAbs ++ rest from by rw [h0]; rfl,
        parseJNumCore_split m.natAbs rest hndB, parseJFrac_noDot m.natAbs rest hrest]
      show some (((m.natAbs : Nat) : Int), (0 : Int), rest) = _
      rw [show ((m.natAbs : Nat) : Int) = m from by omega]
  · by_cases hpos : 0 < e
    · have htail : ∀ c t, 'e' :: (natDecChars e.toNat ++ rest) = c :: t →
          isJsonDigit c = false := by
        intro c t h
        rw [← (List.cons_eq_cons.mp h).1]
        decide
      have hfrac : parseJFrac m.natAbs ('e' :: (natDecChars e.toNat ++ rest))
          = some (m.natAbs, (e.toNat : Int), rest) := by
        simp only [parseJFrac]
        rw [if_neg (by decide),
          parseJExp_digits m.natAbs 0 e.toNat 'e' (Or.inl rfl) rest hrest]
        rw [zero_add]
      by_cases hm : m < 0
      · rw [show numChars m e ++ rest
            = '-' :: (natDecChars m.natAbs ++ ('e' :: (natDecChars e.toNat ++ rest)))
          from by simp [numChars, he, hpos, intDecChars, hm]]
        simp only [parseJNum]
        rw [if_pos trivial, parseJNumCore_split m.natAbs _ htail, hfrac]
        show some ((-(m.natAbs : Int), (e.toNat : Int), rest)) = _
        rw [show -((m.natAbs : Nat) : Int) = m from by omega,
          show ((e.toNat : Nat) : Int) = e from by omega]
      · obtain ⟨c0, t0, h0, hc0⟩ := natDecChars_head m.natAbs
        have hcm : c0 ≠ '-' := fun h => absurd hc0 (by rw [h]; decide)
        rw [show numChars m e ++ rest
            = c0 :: (t0 ++ ('e' :: (natDecChars e.toNat ++ rest)))
          from by simp [numChars, he, hpos, intDecChars, hm, h0]]
        simp only [parseJNum]
        rw [if_neg hcm,
          show c0 :: (t0 ++ ('e' :: (natDecChars e.toNat ++ rest)))
            = natDecChars m.natAbs ++ ('e' :: (natDecChars e.toNat ++ rest))
            from by rw [h0]; rfl,
          parseJNumCore_split m.natAbs _ htail, hfrac]
        show some (((m.natAbs : Nat) : Int), ((e.toNat : Nat) : Int), rest) = _
        rw [show ((m.natAbs : Nat) : Int) = m from by omega,
          show ((e.toNat : Nat) : Int) = e from by omega]
    · have hneg : e < 0 := by omega
      have hk : 1 ≤ (-e).toNat := by omega
      have hrk : m.natAbs % 10 ^ (-e).toNat < 10 ^ (-e).toNat :=
        Nat.mod_lt _ (Nat.pos_pow_of_pos _ (by omega))
      have htail : ∀ c t,
          '.' :: ((List.replicate ((-e).toNat
              - (natDecChars (m.natAbs % 10 ^ (-e).toNat)).length) '0'
            ++ natDecChars (m.natAbs % 10 ^ (-e).toNat)) ++ rest) = c :: t →
          isJsonDigit c = false := by
        intro c t h
        rw [← (List.cons_eq_cons.mp h).1]
        decide
      have hdot := parseJFrac_dot (m.natAbs / 10 ^ (-e).toNat)
        (m.natAbs % 10 ^ (-e).toNat) (-e).toNat hk hrk rest hrest
      have hval : m.natAbs / 10 ^ (-e).toNat * 10 ^ (-e).toNat
          + m.natAbs % 10 ^ (-e).toNat = m.natAbs := Nat.div_add_mod' _ _
      by_cases hm : m < 0
      · rw [show numChars m e ++ rest
            = '-' :: (natDecChars (m.natAbs / 10 ^ (-e).toNat)
              ++ ('.' :: ((List.replicate ((-e).toNat
                  - (natDecChars (m.natAbs % 10 ^ (-e).toNat)).length) '0'
                ++ natDecChars (m.natAbs % 10 ^ (-e).toNat)) ++ rest)))
          from by simp [numChars, he, hpos, hm, List.append_assoc]]
        simp only [parseJNum]
        rw [if_pos trivial, parseJNumCore_split _ _ htail, hdot, hval]
        show some ((-(m.natAbs : Int), -(((-e).toNat : Nat) : Int), rest)) = _
        rw [show -((m.natAbs : Nat) : Int) = m from by omega,
          show -((((-e).toNat : Nat) : Nat) : Int) = e from by omega]
      · obtain ⟨c0, t0, h0, hc0⟩ := natDecChars_head (m.natAbs / 10 ^ (-e).toNat)
        have hcm : c0 ≠ '-' := fun h => absurd hc0 (by rw [h]; decide)
        rw [show numChars m e ++ rest
            = c0 :: (t0 ++ ('.' :: ((List.replicate ((-e).toNat
                  - (natDecChars (m.natAbs % 10 ^ (-e).toNat)).length) '0'
                ++ natDecChars (m.natAbs % 10 ^ (-e).toNat)) ++ rest)))
          from by simp [numChars, he, hpos, hm, h0, List.append_assoc]]
        simp only [parseJNum]
        rw [if_neg hcm,
          show c0 :: (t0 ++ ('.' :: ((List.replicate ((-e).toNat
                  - (natDecChars (m.natAbs % 10 ^ (-e).toNat)).length) '0'
                ++ natDecChars (m.natAbs % 10 ^ (-e).toNat)) ++ rest)))
            = natDecChars (m.natAbs / 10 ^ (-e).toNat)
              ++ ('.' :: ((List.replicate ((-e).toNat
                  - (natDecChars (m.natAbs % 10 ^ (-e).toNat)).length) '0'
                ++ natDecChars (m.natAbs % 10 ^ (-e).toNat)) ++ rest))
            from by rw [h0]; rfl,
          parseJNumCore_split _ _ htail, hdot, hval]
        show some (((m.natAbs : Nat) : Int), -(((-e).toNat : Nat) : Int), rest) = _
        rw [show ((m.natAbs : Nat) : Int) = m from by omega,
          show -((((-e).toNat : Nat) : Nat) : Int) = e from by omega]

/-! ### String round-trip -/

/-- A printed hexadecimal digit reads back as its value. -/
theorem hexDigitVal_hexDigitChar : ∀ k, k < 16 → hexDigitVal (hexDigitChar k) = some k := by
  decide

/-- Parsing one escaped character pushes exactly that character. -/
theorem parseStrBody_escChar (ch : Char) (acc rest : List Char) :
    parseStrBody (escChar ch ++ rest) acc = parseStrBody rest (ch :: acc) := by
  by_cases h1 : ch = '"'
  · subst h1; rfl
  by_cases h2 : ch = '\\'
  · subst h2; rfl
  by_cases h3 : ch = '\n'
  · subst h3; simp only [escChar, h1, h2, if_false, if_true]; rfl
  by_cases h4 : ch = '\r'
  · subst h4; simp only [escChar, h1, h2, h3, if_false, if_true]; rfl
  by_cases h5 : ch = '\t'
  · subst h5; simp only [escChar, h1, h2, h3, h4, if_false, if_true]; rfl
  by_cases h6 : ch = '\x08'
  · subst h6; simp only [escChar, h1, h2, h3, h4, h5, if_false, if_true]; rfl
  by_cases h7 : ch = '\x0c'
  · subst h7; simp only [escChar, h1, h2, h3, h4, h5, h6, if_false, if_true]; rfl
  by_cases h8 : ch.toNat < 32
  · have hesc : escChar ch ++ rest =
        '\\' :: 'u' :: '0' :: '0' :: hexDigitChar (ch.toNat / 16) ::
          hexDigitChar (ch.toNat % 16) :: rest := by
      simp [escChar, h1, h2, h3, h4, h5, h6, h7, h8]
    rw [hesc, parseStrBody]
    rw [hexDigitVal_hexDigitChar (ch.toNat / 16) (by omega),
        hexDigitVal_hexDigitChar (ch.toNat % 16) (by omega)]
    show parseStrBody rest
        (Char.ofNat (((0 * 16 + 0) * 16 + ch.toNat / 16) * 16 + ch.toNat % 16) :: acc) = _
    have hv : ((0 * 16 + 0) * 16 + ch.toNat / 16) * 16 + ch.toNat % 16 = ch.toNat := by
      omega
    rw [hv, Char.ofNat_toNat]
  · have hesc : escChar ch ++ rest = ch :: rest := by
      simp [escChar, h1, h2, h3, h4, h5, h6, h7, h8]
    rw [hesc, parseStrBody.eq_def]
    split <;> simp_all
    intro hle
    exact absurd hle (by omega)

/-- Parsing an escaped character run stops at the closing quote with the
accumulated characters. -/
theorem parseStrBody_escRun (cs : List Char) : ∀ (acc rest : List Char),
    parseStrBody (cs.flatMap escChar ++ '"' :: rest) acc
      = some (String.mk (acc.reverse ++ cs), rest) := by
  induction cs with
  | nil =>
      intro acc rest
      show some (String.mk acc.reverse, rest) = _
      rw [List.append_nil]
  | cons c t ih =>
      intro acc rest
      rw [List.flatMap_cons, List.append_assoc, parseStrBody_escChar, ih]
      simp

/-- The string-literal body round-trip: parsing the escaped characters of
`s` followed by a closing quote yields `s` and the remainder. -/
theorem parseStrBody_strLit (s : String) (rest : List Char) :
    parseStrBody (s.data.flatMap escChar ++ '"' :: rest) [] = some (s, rest) := by
  rw [parseStrBody_escRun]
  rfl

/-! ### Head characters of printed values -/

/-- A digit head is not whitespace and not a closing bracket. -/
theorem digit_head_basic (c : Char) (h : isJsonDigit c = true) :
    isJsonWs c = false ∧ c ≠ ']' ∧ c ≠ '}' := by
  refine ⟨?_, ?_, ?_⟩
  · simp only [isJsonWs, Bool.or_eq_false_iff, beq_eq_false_iff_ne]
    refine ⟨⟨⟨?_, ?_⟩, ?_⟩, ?_⟩ <;> (rintro rfl; exact absurd h (by decide))
  · rintro rfl; exact absurd h (by decide)
  · rintro rfl; exact absurd h (by decide)

/-- A digit head is none of the characters the value dispatcher tests
before reaching the numeral branch. -/
theorem digit_head_dispatch (c : Char) (h : isJsonDigit c = true) :
    c ≠ '{' ∧ c ≠ '[' ∧ c ≠ '"' ∧ c ≠ 'n' ∧ c ≠ 't' ∧ c ≠ 'f' := by
  have hd : '0' ≤ c ∧ c ≤ '9' := by simpa [isJsonDigit] using h
  refine ⟨?_, ?_, ?_, ?_, ?_, ?_⟩ <;> (rintro rfl; revert hd; decide)

/-- Every printed value starts with a character that is not whitespace and
closes neither an array nor an object. -/
theorem ppVal_head (d : Nat) (j : Json) :
    ∃ c t, ppVal d j = c :: t ∧ isJsonWs c = false ∧ c ≠ ']' ∧ c ≠ '}' := by
  cases j with
  | num m e =>
      obtain ⟨c0, t0, h0, hc⟩ := numChars_head m e
      have hpp : ppVal d (Json.num m e) = c0 :: t0 := h0
      rcases hc with rfl | hd
      · exact ⟨'-', t0, hpp, by decide⟩
      · obtain ⟨hws, hbr, hbc⟩ := digit_head_basic c0 hd
        exact ⟨c0, t0, hpp, hws, hbr, hbc⟩
  | bool b => cases b <;> exact ⟨_, _, rfl, by decide⟩
  | arr es => cases es <;> exact ⟨_, _, rfl, by decide⟩
  | obj ms => cases ms <;> exact ⟨_, _, rfl, by decide⟩
  | null => exact ⟨_, _, rfl, by decide⟩
  | str s => exact ⟨_, _, rfl, by decide⟩

/-- Printed values are never empty. -/
theorem ppVal_length_pos (d : Nat) (j : Json) : 1 ≤ (ppVal d j).length := by
  obtain ⟨c, t, h, -, -, -⟩ := ppVal_head d j
  rw [h]
  simp

/-- Leading whitespace does not change what a value parse returns. -/
theorem parseVal_dropWs (fuel : Nat) (w x : List Char)
    (h : ∀ c ∈ w, isJsonWs c = true) :
    parseVal fuel (w ++ x) = parseVal fuel x := by
  cases fuel with
  | zero => rfl
  | succ f => simp only [parseVal, skipJsonWs_append w x h]

/-- Leading whitespace does not change what an element-list parse returns. -/
theorem parseElems_dropWs (fuel : Nat) (w x : List Char)
    (h : ∀ c ∈ w, isJsonWs c = true) :
    parseElems fuel (w ++ x) = parseElems fuel x := by
  cases fuel with
  | zero => rfl
  | succ f => simp only [parseElems, parseVal_dropWs f w x h]

/-- Leading whitespace does not change what a member-list parse returns. -/
theorem parseFields_dropWs (fuel : Nat) (w x : List Char)
    (h : ∀ c ∈ w, isJsonWs c = true) :
    parseFields fuel (w ++ x) = parseFields fuel x := by
  cases fuel with
  | zero => rfl
  | succ f => simp only [parseFields, skipJsonWs_append w x h]

/-! ### Round-trip of the printer and parser -/

/-- One parse step at a non-whitespace head: the value dispatcher. -/
theorem parseVal_step (f : Nat) (c : Char) (r : List Char) (hws : isJsonWs c = false) :
    parseVal (f + 1) (c :: r) =
      (if c = 'n' then (dropLit ['u', 'l', 'l'] r).map (fun r' => (Json.null, r'))
      else if c = 't' then (dropLit ['r', 'u', 'e'] r).map (fun r' => (Json.bool true, r'))
      else if c = 'f' then (dropLit ['a', 'l', 's', 'e'] r).map (fun r' => (Json.bool false, r'))
      else if c = '"' then (parseStrBody r []).map (fun p => (Json.str p.1, p.2))
      else if c = '[' then
        match skipJsonWs r with
        | [] => none
        | c2 :: r2 =>
          if c2 = ']' then some (Json.arr [], r2)
          else (parseElems f (c2 :: r2)).map (fun p => (Json.arr p.1, p.2))
      else if c = '{' then
        match skipJsonWs r with
        | [] => none
        | c2 :: r2 =>
          if c2 = '}' then some (Json.obj [], r2)
          else (parseFields f (c2 :: r2)).map (fun p => (Json.obj p.1, p.2))
      else if c = '-' ∨ isJsonDigit c then
        (parseJNum (c :: r)).map (fun p => (Json.num p.1 p.2.1, p.2.2))
      else none) := by
  simp only [parseVal, skipJsonWs_cons c r hws]

/-- Parsing a printed numeral at the front of the input yields the
numeral. -/
theorem parseVal_numStep (f : Nat) (m e : Int) (rest : List Char)
    (hrest : numBoundary rest = true) :
    parseVal (f + 1) (numChars m e ++ rest) = some (Json.num m e, rest) := by
  obtain ⟨c0, t0, h0, hc⟩ := numChars_head m e
  have harg : numChars m e ++ rest = c0 :: (t0 ++ rest) := by rw [h0]; rfl
  rcases hc with rfl | hd
  · rw [harg, parseVal_step f '-' (t0 ++ rest) (by decide),
      if_neg (by decide), if_neg (by decide), if_neg (by decide), if_neg (by decide),
      if_neg (by decide), if_neg (by decide), if_pos (Or.inl rfl), ← harg,
      parseJNum_numChars m e rest hrest]
    rfl
  · obtain ⟨hws, -, -⟩ := digit_head_basic c0 hd
    obtain ⟨hbc, hbk, hq, hn, ht, hf2⟩ := digit_head_dispatch c0 hd
    rw [harg, parseVal_step f c0 (t0 ++ rest) hws,
      if_neg hn, if_neg ht, if_neg hf2, if_neg hq, if_neg hbk, if_neg hbc,
      if_pos (Or.inr hd), ← harg, parseJNum_numChars m e rest hrest]
    rfl

/-- The array branch reduces to the element parser when the first item does
not begin with a closing bracket. -/
theorem parseVal_arrStep (f : Nat) (r : List Char) (c2 : Char) (t2 : List Char)
    (hsk : skipJsonWs r = c2 :: t2) (hne : c2 ≠ ']') :
    parseVal (f + 1) ('[' :: r)
      = (parseElems f (c2 :: t2)).map (fun p => (Json.arr p.1, p.2)) := by
  have h0 : parseVal (f + 1) ('[' :: r) =
      (match skipJsonWs r with
       | [] => none
       | c2 :: r2 =>
         if c2 = ']' then some (Json.arr [], r2)
         else (parseElems f (c2 :: r2)).map (fun p => (Json.arr p.1, p.2))) := rfl
  rw [h0, hsk]
  simp only [if_neg hne]

/-- The object branch reduces to the member parser when the first key does
not begin with a closing brace. -/
theorem parseVal_objStep (f : Nat) (r : List Char) (c2 : Char) (t2 : List Char)
    (hsk : skipJsonWs r = c2 :: t2) (hne : c2 ≠ '}') :
    parseVal (f + 1) ('{' :: r)
      = (parseFields f (c2 :: t2)).map (fun p => (Json.obj p.1, p.2)) := by
  have h0 : parseVal (f + 1) ('{' :: r) =
      (match skipJsonWs r with
       | [] => none
       | c2 :: r2 =>
         if c2 = '}' then some (Json.obj [], r2)
         else (parseFields f (c2 :: r2)).map (fun p => (Json.obj p.1, p.2))) := rfl
  rw [h0, hsk]
  simp only [if_neg hne]

/-- One element-list parse step. -/
theorem parseElems_step (f : Nat) (cs : List Char) :
    parseElems (f + 1) cs =
      (match parseVal f cs with
       | none => none
       | some (v, r) =>
         match skipJsonWs r with
         | [] => none
         | c :: r' =>
           if c = ',' then (parseElems f r').map (fun p => (v :: p.1, p.2))
           else if c = ']' then some ([v], r')
           else none) := rfl

/-- One member-list parse step after a printed key. -/
theorem parseFields_key (f : Nat) (k : String) (r1 : List Char) :
    parseFields (f + 1) ('"' :: (k.data.flatMap escChar ++ ('"' :: r1))) =
      (match skipJsonWs r1 with
       | [] => none
       | c2 :: r2 =>
         if c2 = ':' then
           match parseVal f r2 with
           | none => none
           | some (v, r3) =>
             match skipJsonWs r3 with
             | [] => none
             | c3 :: r4 =>
               if c3 = ',' then (parseFields f r4).map (fun p => ((k, v) :: p.1, p.2))
               else if c3 = '}' then some ([(k, v)], r4)
               else none
         else none) := by
  have h0 : parseFields (f + 1) ('"' :: (k.data.flatMap escChar ++ ('"' :: r1))) =
      (match parseStrBody (k.data.flatMap escChar ++ ('"' :: r1)) [] with
       | none => none
       | some (k', r1') =>
         match skipJsonWs r1' with
         | [] => none
         | c2 :: r2 =>
           if c2 = ':' then
             match parseVal f r2 with
             | none => none
             | some (v, r3) =>
               match skipJsonWs r3 with
               | [] => none
               | c3 :: r4 =>
                 if c3 = ',' then (parseFields f r4).map (fun p => ((k', v) :: p.1, p.2))
                 else if c3 = '}' then some ([(k', v)], r4)
                 else none
           else none) := rfl
  rw [h0, parseStrBody_strLit k r1]

/-- Whitespace drop specialised to a single space. -/
theorem parseVal_dropSpace (f : Nat) (x : List Char) :
    parseVal f (' ' :: x) = parseVal f x :=
  parseVal_dropWs f [' '] x (by decide)

mutual

/-- Parsing the pretty-printed form of a value recovers it exactly, whenever
the fuel exceeds the printed length and the remainder cannot extend a
numeral. -/
theorem rtVal : ∀ (j : Json) (d fuel : Nat) (rest : List Char),
    (ppVal d j).length < fuel → numBoundary rest = true →
    parseVal fuel (ppVal d j ++ rest) = some (j, rest)
  | .null, d, fuel, rest, hf, _ => by
      cases fuel with
      | zero => exact absurd hf (Nat.not_lt_zero _)
      | succ f => rfl
  | .bool true, d, fuel, rest, hf, _ => by
      cases fuel with
      | zero => exact absurd hf (Nat.not_lt_zero _)
      | succ f => rfl
  | .bool false, d, fuel, rest, hf, _ => by
      cases fuel with
      | zero => exact absurd hf (Nat.not_lt_zero _)
      | succ f => rfl
  | .num m e, d, fuel, rest, hf, hb => by
      cases fuel with
      | zero => exact absurd hf (Nat.not_lt_zero _)
      | succ f => exact parseVal_numStep f m e rest hb
  | .str s, d, fuel, rest, hf, _ => by
      cases fuel with
      | zero => exact absurd hf (Nat.not_lt_zero _)
      | succ f =>
          have harg : ppVal d (Json.str s) ++ rest
              = '"' :: (s.data.flatMap escChar ++ ('"' :: rest)) := by
            simp [ppVal, strLitChars]
          rw [harg]
          show (parseStrBody (s.data.flatMap escChar ++ ('"' :: rest)) []).map
              (fun p => (Json.str p.1, p.2)) = _
          rw [parseStrBody_strLit s rest]
          rfl
  | .arr [], d, fuel, rest, hf, _ => by
      cases fuel with
      | zero => exact absurd hf (Nat.not_lt_zero _)
      | succ f => rfl
  | .arr (e :: es), d, fuel, rest, hf, _ => by
      cases fuel with
      | zero => exact absurd hf (Nat.not_lt_zero _)
      | succ f =>
          obtain ⟨c0, t0, hpp, hws0, hbr0, hbc0⟩ := ppVal_head (d + 1) e
          have harg : ppVal d (Json.arr (e :: es)) ++ rest
              = '[' :: (indentChars (d + 1) ++ (ppVal (d + 1) e ++ (ppElemsTail (d + 1) es
                  ++ (indentChars d ++ (']' :: rest))))) := by
            simp [ppVal, List.append_assoc]
          have hsk : skipJsonWs (indentChars (d + 1) ++ (ppVal (d + 1) e
                ++ (ppElemsTail (d + 1) es ++ (indentChars d ++ (']' :: rest)))))
              = c0 :: (t0 ++ (ppElemsTail (d + 1) es ++ (indentChars d ++ (']' :: rest)))) := by
            rw [skipJsonWs_append _ _ (indentChars_allWs _), hpp, List.cons_append,
                skipJsonWs_cons _ _ hws0]
          rw [harg, parseVal_arrStep f _ c0 _ hsk hbr0]
          rw [show c0 :: (t0 ++ (ppElemsTail (d + 1) es ++ (indentChars d ++ (']' :: rest))))
                = ppVal (d + 1) e ++ (ppElemsTail (d + 1) es ++ (indentChars d ++ (']' :: rest)))
              from by rw [hpp]; rfl]
          have hfe : (ppVal (d + 1) e).length + (ppElemsTail (d + 1) es).length + 1 < f := by
            have : (ppVal d (Json.arr (e :: es))).length
                = 1 + ((indentChars (d + 1)).length + ((ppVal (d + 1) e).length
                    + ((ppElemsTail (d + 1) es).length + ((indentChars d).length + 1)))) := by
              simp [ppVal, List.length_append]
              omega
            rw [this] at hf
            have hip : 1 ≤ (indentChars (d + 1)).length := by simp [indentChars]
            omega
          rw [rtElems e es (d + 1) d f rest hfe]
          rfl
  | .obj [], d, fuel, rest, hf, _ => by
      cases fuel with
      | zero => exact absurd hf (Nat.not_lt_zero _)
      | succ f => rfl
  | .obj ((k, v) :: ms), d, fuel, rest, hf, _ => by
      cases fuel with
      | zero => exact absurd hf (Nat.not_lt_zero _)
      | succ f =>
          have harg : ppVal d (Json.obj ((k, v) :: ms)) ++ rest
              = '{' :: (indentChars (d + 1) ++ ('"' :: (k.data.flatMap escChar
                  ++ ('"' :: (':' :: (' ' :: (ppVal (d + 1) v ++ (ppFieldsTail (d + 1) ms
                  ++ (indentChars d ++ ('}' :: rest)))))))))) := by
            simp [ppVal, strLitChars, List.append_assoc]
          have hsk : skipJsonWs (indentChars (d + 1) ++ ('"' :: (k.data.flatMap escChar
                ++ ('"' :: (':' :: (' ' :: (ppVal (d + 1) v ++ (ppFieldsTail (d + 1) ms
                ++ (indentChars d ++ ('}' :: rest))))))))))
              = '"' :: (k.data.flatMap escChar ++ ('"' :: (':' :: (' ' :: (ppVal (d + 1) v
                  ++ (ppFieldsTail (d + 1) ms ++ (indentChars d ++ ('}' :: rest)))))))) := by
            rw [skipJsonWs_append _ _ (indentChars_allWs _), skipJsonWs_cons _ _ (by decide)]
          rw [harg, parseVal_objStep f _ '"' _ hsk (by decide)]
          have hfm : (k.data.flatMap escChar).length + (ppVal (d + 1) v).length
              + (ppFieldsTail (d + 1) ms).length + 4 < f := by
            have : (ppVal d (Json.obj ((k, v) :: ms))).length
                = 1 + ((indentChars (d + 1)).length + (((k.data.flatMap escChar).length + 2)
                    + (2 + ((ppVal (d + 1) v).length + ((ppFieldsTail (d + 1) ms).length
                    + ((indentChars d).length + 1)))))) := by
              simp [ppVal, strLitChars, List.length_append]
              omega
            rw [this] at hf
            have hip : 1 ≤ (indentChars (d + 1)).length := by simp [indentChars]
            omega
          rw [rtFields k v ms (d + 1) d f rest hfm]
          rfl
termination_by j => sizeOf j

/-- Parsing the printed items of a non-empty array element list recovers
the list and stops past the closing bracket. -/
theorem rtElems : ∀ (e : Json) (es : List Json) (d d2 fuel : Nat) (rest : List Char),
    (ppVal d e).length + (ppElemsTail d es).length + 1 < fuel →
    parseElems fuel (ppVal d e ++ (ppElemsTail d es ++ (indentChars d2 ++ (']' :: rest))))
      = some (e :: es, rest)
  | e, [], d, d2, fuel, rest, hf => by
      cases fuel with
      | zero => exact absurd hf (Nat.not_lt_zero _)
      | succ f =>
          rw [parseElems_step]
          have hfe : (ppVal d e).length < f := by omega
          rw [rtVal e d f _ hfe (by rfl)]
          show (match skipJsonWs (ppElemsTail d ([] : List Json)
              ++ (indentChars d2 ++ (']' :: rest))) with
            | [] => none
            | c :: r' =>
              if c = ',' then (parseElems f r').map (fun p => (e :: p.1, p.2))
              else if c = ']' then some ([e], r')
              else none) = some ([e], rest)
          have hsk : skipJsonWs (ppElemsTail d ([] : List Json)
                ++ (indentChars d2 ++ (']' :: rest))) = ']' :: rest := by
            show skipJsonWs (indentChars d2 ++ (']' :: rest)) = ']' :: rest
            rw [skipJsonWs_append _ _ (indentChars_allWs _), skipJsonWs_cons _ _ (by decide)]
          rw [hsk]
          rfl
  | e, x :: xs, d, d2, fuel, rest, hf => by
      cases fuel with
      | zero => exact absurd hf (Nat.not_lt_zero _)
      | succ f =>
          rw [parseElems_step]
          have hfe : (ppVal d e).length < f := by
            simp only [ppElemsTail, List.length_cons, List.length_append] at hf
            omega
          rw [rtVal e d f _ hfe (by rfl)]
          have hR : ppElemsTail d (x :: xs) ++ (indentChars d2 ++ (']' :: rest))
              = ',' :: (indentChars d ++ (ppVal d x ++ (ppElemsTail d xs
                  ++ (indentChars d2 ++ (']' :: rest))))) := by
            simp [ppElemsTail, List.append_assoc]
          rw [hR]
          show (parseElems f (indentChars d ++ (ppVal d x ++ (ppElemsTail d xs
              ++ (indentChars d2 ++ (']' :: rest)))))).map (fun p => (e :: p.1, p.2))
              = some (e :: x :: xs, rest)
          rw [parseElems_dropWs f _ _ (indentChars_allWs d)]
          have hfx : (ppVal d x).length + (ppElemsTail d xs).length + 1 < f := by
            simp only [ppElemsTail, List.length_cons, List.length_append] at hf
            omega
          rw [rtElems x xs d d2 f rest hfx]
          rfl
termination_by e es => sizeOf e + sizeOf es

/-- Parsing the printed members of a non-empty object member list recovers
the members and stops past the closing brace. -/
theorem rtFields : ∀ (k : String) (v : Json) (ms : List (String × Json)) (d d2 fuel : Nat)
    (rest : List Char),
    (k.data.flatMap escChar).length + (ppVal d v).length + (ppFieldsTail d ms).length + 4 < fuel →
    parseFields fuel ('"' :: (k.data.flatMap escChar ++ ('"' :: (':' :: (' ' :: (ppVal d v
        ++ (ppFieldsTail d ms ++ (indentChars d2 ++ ('}' :: rest)))))))))
      = some ((k, v) :: ms, rest)
  | k, v, [], d, d2, fuel, rest, hf => by
      cases fuel with
      | zero => exact absurd hf (Nat.not_lt_zero _)
      | succ f =>
          rw [parseFields_key]
          show (match parseVal f (' ' :: (ppVal d v ++ (ppFieldsTail d ([] : List (String × Json))
              ++ (indentChars d2 ++ ('}' :: rest))))) with
            | none => none
            | some (v2, r3) =>
              match skipJsonWs r3 with
              | [] => none
              | c3 :: r4 =>
                if c3 = ',' then (parseFields f r4).map (fun p => ((k, v2) :: p.1, p.2))
                else if c3 = '}' then some ([(k, v2)], r4)
                else none) = some ([(k, v)], rest)
          rw [parseVal_dropSpace]
          have hfv : (ppVal d v).length < f := by omega
          rw [rtVal v d f _ hfv (by rfl)]
          show (match skipJsonWs (ppFieldsTail d ([] : List (String × Json))
              ++ (indentChars d2 ++ ('}' :: rest))) with
            | [] => none
            | c3 :: r4 =>
              if c3 = ',' then (parseFields f r4).map (fun p => ((k, v) :: p.1, p.2))
              else if c3 = '}' then some ([(k, v)], r4)
              else none) = some ([(k, v)], rest)
          have hsk : skipJsonWs (ppFieldsTail d ([] : List (String × Json))
                ++ (indentChars d2 ++ ('}' :: rest))) = '}' :: rest := by
            show skipJsonWs (indentChars d2 ++ ('}' :: rest)) = '}' :: rest
            rw [skipJsonWs_append _ _ (indentChars_allWs _), skipJsonWs_cons _ _ (by decide)]
          rw [hsk]
          rfl
  | k, v, (k2, v2) :: ms2, d, d2, fuel, rest, hf => by
      cases fuel with
      | zero => exact absurd hf (Nat.not_lt_zero _)
      | succ f =>
          rw [parseFields_key]
          show (match parseVal f (' ' :: (ppVal d v ++ (ppFieldsTail d ((k2, v2) :: ms2)
              ++ (indentChars d2 ++ ('}' :: rest))))) with
            | none => none
            | some (v3, r3) =>
              match skipJsonWs r3 with
              | [] => none
              | c3 :: r4 =>
                if c3 = ',' then (parseFields f r4).map (fun p => ((k, v3) :: p.1, p.2))
                else if c3 = '}' then some ([(k, v3)], r4)
                else none) = some ((k, v) :: (k2, v2) :: ms2, rest)
          rw [parseVal_dropSpace]
          have hfv : (ppVal d v).length < f := by
            simp only [ppFieldsTail, strLitChars, List.length_cons, List.length_append] at hf
            omega
          rw [rtVal v d f _ hfv (by rfl)]
          have hR : ppFieldsTail d ((k2, v2) :: ms2) ++ (indentChars d2 ++ ('}' :: rest))
              = ',' :: (indentChars d ++ ('"' :: (k2.data.flatMap escChar ++ ('"' :: (':'
                  :: (' ' :: (ppVal d v2 ++ (ppFieldsTail d ms2
                  ++ (indentChars d2 ++ ('}' :: rest)))))))))) := by
            simp [ppFieldsTail, strLitChars, List.append_assoc]
          rw [hR]
          show (parseFields f (indentChars d ++ '"' :: (k2.data.flatMap escChar
              ++ '"' :: ':' :: ' ' :: (ppVal d v2 ++ (ppFieldsTail d ms2
              ++ (indentChars d2 ++ '}' :: rest)))))).map
              (fun p => ((k, v) :: p.1, p.2)) = some ((k, v) :: (k2, v2) :: ms2, rest)
          rw [parseFields_dropWs f _ _ (indentChars_allWs d)]
          have hfx : (k2.data.flatMap escChar).length + (ppVal d v2).length
              + (ppFieldsTail d ms2).length + 4 < f := by
            simp only [ppFieldsTail, strLitChars, List.length_cons, List.length_append] at hf
            omega
          rw [rtFields k2 v2 ms2 d d2 f rest hfx]
          rfl
termination_by _ v ms => sizeOf v + sizeOf ms

end

/-- The codec round-trip: `JSON.parse` recovers exactly the value that
`JSON.stringify(·, null, 2)` printed. -/
theorem jsonParse_stringify2 (j : Json) : jsonParse (stringify2 j) = some j := by
  have h := rtVal j 0 ((ppVal 0 j).length + 1) [] (by omega) rfl
  rw [List.append_nil] at h
  show (match parseVal ((ppVal 0 j).length + 1) (ppVal 0 j) with
    | none => none
    | some (v, rest) => if (skipJsonWs rest).isEmpty then some v else none) = some j
  rw [h]
  rfl

/-- A serialized quick-facts record reads back as itself. -/
theorem factsOfJson_map (fs : List (String × String)) :
    factsOfJson (Json.obj (fs.map (fun p => (p.1, Json.str p.2)))) = some fs := by
  simp only [factsOfJson, List.map_map]
  have hfun : ((fun p : String × Json => (p.1, (p.2.asStr).getD "")) ∘
      (fun p : String × String => (p.1, Json.str p.2))) = fun p : String × String => p := by
    funext p
    rfl
  rw [hfun]
  simp

/-- A serialized marker type reads back as itself. -/
theorem markerTypeOfStr_markerTypeStr (t : MarkerType) :
    markerTypeOfStr (markerTypeStr t) = some t := by
  cases t <;> rfl

/-- Reading back a serialized marker recovers it exactly. -/
theorem jsonToMarker_markerToJson (m : Marker) : jsonToMarker (markerToJson m) = m := by
  obtain ⟨mid, mname, mtype, mx, my, mlink, mvis, mdesc, mqf⟩ := m
  cases mtype <;> cases mlink <;> cases mvis <;> cases mdesc <;>
    (cases mqf with
     | none => rfl
     | some fs =>
         conv_rhs => rw [← factsOfJson_map fs]
         rfl)

/-! ### History engine lemmas -/

/-- Reading right past a list reads the appended element. -/
theorem getD_snoc_length (l : List α) (a d : α) : (l ++ [a]).getD l.length d = a := by
  induction l with
  | nil => rfl
  | cons x xs ih => simp only [List.cons_append, List.length_cons, List.getD_cons_succ]; exact ih

/-- Reading at any index equal to the list length reads the appended
element. -/
theorem getD_snoc_of_eq (l : List α) (a d : α) (n : Nat) (h : n = l.length) :
    (l ++ [a]).getD n d = a := by
  rw [h]
  exact getD_snoc_length l a d

/-- `setState` never touches the bound. -/
theorem UndoRedo.setState_maxHistory (u : UndoRedo α) (s : α) :
    (u.setState s).maxHistory = u.maxHistory := rfl

/-- After `setState` the exposed state is the state just written, whenever
the cursor is in bounds and the history respects the bound. -/
theorem UndoRedo.setState_stateOf (u : UndoRedo α) (s : α)
    (hidx : u.currentIndex < u.history.length) (hlen : u.history.length ≤ u.maxHistory) :
    (u.setState s).stateOf = s := by
  have htk : (u.history.take (u.currentIndex + 1)).length = u.currentIndex + 1 := by
    rw [List.length_take]
    rw [Nat.min_def]
    split <;> omega
  simp only [UndoRedo.setState, UndoRedo.stateOf]
  by_cases hov : u.maxHistory < (u.history.take (u.currentIndex + 1) ++ [s]).length
  · simp only [if_pos hov]
    simp only [List.length_append, htk, List.length_singleton] at hov
    have hidx' : min (u.currentIndex + 1) (u.maxHistory - 1) = u.currentIndex := by
      rw [Nat.min_def]
      split <;> omega
    rw [hidx']
    obtain ⟨c, t, hct⟩ : ∃ c t, u.history.take (u.currentIndex + 1) = c :: t := by
      cases h : u.history.take (u.currentIndex + 1) with
      | nil => rw [h] at htk; simp at htk
      | cons c t => exact ⟨c, t, rfl⟩
    rw [hct]
    show (t ++ [s]).getD u.currentIndex u.initialState = s
    have ht : t.length = u.currentIndex := by
      rw [hct] at htk
      simpa using htk
    exact getD_snoc_of_eq t s _ _ ht.symm
  · simp only [if_neg hov]
    simp only [List.length_append, htk, List.length_singleton] at hov
    have hidx' : min (u.currentIndex + 1) (u.maxHistory - 1) = u.currentIndex + 1 := by
      rw [Nat.min_def]
      split <;> omega
    rw [hidx']
    exact getD_snoc_of_eq _ s _ _ htk.symm

/-- After `setState`, undo is always possible when the bound is at least
two (as it is with the default 50). -/
theorem UndoRedo.setState_canUndo (u : UndoRedo α) (s : α) (hM : 2 ≤ u.maxHistory) :
    (u.setState s).canUndo = true := by
  simp only [UndoRedo.canUndo, UndoRedo.setState, decide_eq_true_eq]
  rw [Nat.min_def]
  split <;> omega

/-- After `setState` the history holds at least two entries: the appended
state did not collapse it to one. -/
theorem UndoRedo.setState_length_two (u : UndoRedo α) (s : α)
    (h1 : 1 ≤ u.history.length) (hM : 2 ≤ u.maxHistory) :
    2 ≤ (u.setState s).history.length := by
  simp only [UndoRedo.setState]
  rw [apply_ite List.length]
  simp only [List.length_tail, List.length_append, List.length_take, List.length_singleton]
  rw [Nat.min_def]
  split_ifs <;> omega

/-- `setState` keeps the cursor strictly inside the history. -/
theorem UndoRedo.setState_inv (u : UndoRedo α) (s : α)
    (h2 : u.currentIndex < u.history.length) :
    1 ≤ (u.setState s).history.length ∧
      (u.setState s).currentIndex < (u.setState s).history.length := by
  have htk : (u.history.take (u.currentIndex + 1)).length = u.currentIndex + 1 := by
    rw [List.length_take, Nat.min_def]
    split <;> omega
  simp only [UndoRedo.setState]
  rw [apply_ite List.length]
  simp only [List.length_tail, List.length_append, htk, List.length_singleton]
  constructor
  · split_ifs <;> omega
  · rw [Nat.min_def]
    split_ifs <;> omega

/-- `setState` keeps the history within the bound, provided it was within
the bound before. -/
theorem UndoRedo.setState_length_le (u : UndoRedo α) (s : α)
    (hlen : u.history.length ≤ u.maxHistory) (hM : 1 ≤ u.maxHistory) :
    (u.setState s).history.length ≤ u.maxHistory := by
  simp only [UndoRedo.setState]
  rw [apply_ite List.length]
  simp only [List.length_tail, List.length_append, List.length_take, List.length_singleton]
  rw [Nat.min_def]
  split_ifs <;> omega

/-- Pushing states onto an aligned history (cursor at the end, length
within the bound) keeps it aligned and ends with the last pushed state
current. -/
theorem pushAll_aligned : ∀ (ss : List α) (u : UndoRedo α),
    1 ≤ u.maxHistory →
    u.currentIndex + 1 = u.history.length →
    u.history.length ≤ u.maxHistory →
    (pushAll ss u).currentIndex + 1 = (pushAll ss u).history.length ∧
      (pushAll ss u).history.length ≤ u.maxHistory ∧
      (pushAll ss u).maxHistory = u.maxHistory ∧
      (pushAll ss u).stateOf = ss.getLastD u.stateOf
  | [], u, _, hcur, hlen => ⟨hcur, hlen, rfl, rfl⟩
  | s :: ss, u, hM, hcur, hlen => by
      have hidx : u.currentIndex < u.history.length := by omega
      have hst : (u.setState s).stateOf = s := u.setState_stateOf s hidx hlen
      have hl2 : (u.setState s).history.length ≤ u.maxHistory :=
        u.setState_length_le s hlen hM
      have halign : (u.setState s).currentIndex + 1 = (u.setState s).history.length := by
        have htk : (u.history.take (u.currentIndex + 1)).length = u.currentIndex + 1 := by
          rw [List.length_take, Nat.min_def]
          split <;> omega
        simp only [UndoRedo.setState]
        rw [apply_ite List.length]
        simp only [List.length_tail, List.length_append, htk, List.length_singleton]
        rw [Nat.min_def]
        split_ifs <;> omega
      have ih := pushAll_aligned ss (u.setState s) (by rw [u.setState_maxHistory s]; exact hM)
        halign (by rw [u.setState_maxHistory s]; exact hl2)
      rw [u.setState_maxHistory s] at ih
      refine ⟨ih.1, ih.2.1, ih.2.2.1, ?_⟩
      rw [show pushAll (s :: ss) u = pushAll ss (u.setState s) from rfl, ih.2.2.2, hst,
        List.getLastD_cons]

/-- Every single operation preserves the in-bounds invariant. -/
theorem applyOp_inv (op : HistOp α) (u : UndoRedo α)
    (h1 : 1 ≤ u.history.length) (h2 : u.currentIndex < u.history.length) :
    1 ≤ (applyOp op u).history.length ∧
      (applyOp op u).currentIndex < (applyOp op u).history.length := by
  cases op with
  | set a => exact u.setState_inv a h2
  | stepBack =>
      simp only [applyOp, UndoRedo.undo]
      split_ifs with h
      · exact ⟨h1, by show u.currentIndex - 1 < u.history.length; omega⟩
      · exact ⟨h1, h2⟩
  | stepFwd =>
      simp only [applyOp, UndoRedo.redo]
      split_ifs with h
      · exact ⟨h1, by show u.currentIndex + 1 < u.history.length; omega⟩
      · exact ⟨h1, h2⟩
  | clear =>
      exact ⟨by show (1 : Nat) ≤ [u.stateOf].length; simp,
        by show (0 : Nat) < [u.stateOf].length; simp⟩

/-- Any operation sequence preserves the in-bounds invariant. -/
theorem applyOps_inv : ∀ (ops : List (HistOp α)) (u : UndoRedo α),
    1 ≤ u.history.length → u.currentIndex < u.history.length →
    1 ≤ (applyOps ops u).history.length ∧
      (applyOps ops u).currentIndex < (applyOps ops u).history.length
  | [], u, h1, h2 => ⟨h1, h2⟩
  | op :: ops, u, h1, h2 => by
      obtain ⟨g1, g2⟩ := applyOp_inv op u h1 h2
      exact applyOps_inv ops (applyOp op u) g1 g2

/-! ### Import / export behaviour -/

/-- Decoding the encoded marker list is the identity. -/
theorem jsonToMarker_map_round (ms : List Marker) :
    (ms.map markerToJson).map jsonToMarker = ms := by
  rw [List.map_map]
  have h : jsonToMarker ∘ markerToJson = id := funext jsonToMarker_markerToJson
  rw [h, List.map_id]

/-- What importing the export document does, for any repository state with
the default history bound and an in-bounds history: the import succeeds,
the marker list is unchanged (deep-equal through the codec), and — because
the import pushes through `setState` rather than calling `clearHistory` —
undo becomes possible. -/
theorem import_export_behavior (st : RepoState)
    (hM : st.markersHistory.maxHistory = 50)
    (hidx : st.markersHistory.currentIndex < st.markersHistory.history.length)
    (hlen : st.markersHistory.history.length ≤ 50) :
    (importMarkers (exportMarkers st) st).2 = ImportResult.ok ∧
      markersOf (importMarkers (exportMarkers st) st).1 = markersOf st ∧
      (importMarkers (exportMarkers st) st).1.markersHistory.canUndo = true := by
  have hp : jsonParse (exportMarkers st) = some (exportDoc (markersOf st) st.mapConfig) :=
    jsonParse_stringify2 _
  have hmain : importMarkers (exportMarkers st) st =
      ({ setMarkersState (((markersOf st).map markerToJson).map jsonToMarker) st with
          mapConfig := mergeConfig st.mapConfig (exportConfigJson st.mapConfig)
          savedConfig := mergeConfig st.savedConfig (exportConfigJson st.mapConfig) },
        ImportResult.ok) := by
    simp only [importMarkers, hp, exportDoc, exportConfigJson]
    rfl
  rw [hmain]
  refine ⟨rfl, ?_, ?_⟩
  · show (setMarkersState (((markersOf st).map markerToJson).map jsonToMarker)
        st).markersHistory.stateOf = markersOf st
    rw [jsonToMarker_map_round]
    show (st.markersHistory.setState (markersOf st)).stateOf = markersOf st
    exact st.markersHistory.setState_stateOf _ hidx (by rw [hM]; exact hlen)
  · show (st.markersHistory.setState
        (((markersOf st).map markerToJson).map jsonToMarker)).canUndo = true
    exact st.markersHistory.setState_canUndo _ (by rw [hM]; omega)

/-- Importing the config-less end-to-end document fails with the
unrecognized-shape diagnostic and leaves any state untouched: the object
shape requires both `config` and `markers`, and an object is not an
array. -/
theorem importDocNoConfig_fails (st : RepoState) :
    importMarkers importDocNoConfig st =
      (st, .err "Invalid format: expected markers array or \x7bconfig, markers\x7d object") := by
  have hp : jsonParse importDocNoConfig = some (Json.obj [("markers", Json.arr [Json.obj
      [("id", Json.str "1"), ("name", Json.str "A"), ("type", Json.str "town"),
       ("x", Json.num 1 0), ("y", Json.num 1 0)]])]) := rfl
  simp only [importMarkers, hp]
  rfl

/-- A parse failure reports the malformed-document diagnostic and touches
nothing. -/
theorem importMarkers_malformed (s : String) (st : RepoState) (hp : jsonParse s = none) :
    importMarkers s st = (st, .err "Invalid JSON") := by
  simp only [importMarkers, hp]

/-- The document `null` parses, but reading `.config` of `null` throws, so
the surrounding catch reports the malformed-document diagnostic. -/
theorem importMarkers_null (st : RepoState) :
    importMarkers "null" st = (st, .err "Invalid JSON") := by
  have hp : jsonParse "null" = some Json.null := rfl
  simp only [importMarkers, hp]

/-- A parseable non-null document matching neither accepted shape fails
with the unrecognized-shape diagnostic and touches nothing. -/
theorem importMarkers_unrecognized (s : String) (v : Json) (st : RepoState)
    (hp : jsonParse s = some v) (hnull : v ≠ Json.null)
    (hshape : hasImportObjectShape v = false) (harr : v.isArr = false) :
    importMarkers s st =
      (st, .err "Invalid format: expected markers array or \x7bconfig, markers\x7d object") := by
  cases v with
  | null => exact absurd rfl hnull
  | bool b => simp only [importMarkers, hp]; rfl
  | num m2 e2 => simp only [importMarkers, hp]; rfl
  | str s2 => simp only [importMarkers, hp]; rfl
  | arr l => simp [Json.isArr] at harr
  | obj ms =>
      simp only [importMarkers, hp]
      rcases hc : (Json.obj ms).getField "config" with - | c
      · rfl
      · rcases hm : (Json.obj ms).getField "markers" with - | m
        · rfl
        · cases m with
          | arr raw =>
              have hc' : jsTruthy c = false := by
                simp [hasImportObjectShape, hc, hm, jsTruthyOpt, jsTruthy, Json.isArr] at hshape
                exact hshape
              simp only [hc']
              rfl
          | null => rfl
          | bool b => rfl
          | num m2 e2 => rfl
          | str s2 => rfl
          | obj ms2 => rfl

/-- Boundary probes of the parse model against `JSON.parse`: a fractional
numeral parses (such a document is not malformed), a leading-zero numeral
and a raw control character in a string are syntax errors, and the
fractional-config object document imports successfully (it is in neither
error bucket). -/
theorem jsonParse_fidelity :
    jsonParse "1.5" = some (Json.num 15 (-1)) ∧
      jsonParse "042" = none ∧
      jsonParse "\"a\nb\"" = none ∧
      (importMarkers "\x7b\"config\":\x7b\"imageWidth\":1.5\x7d,\"markers\":[]\x7d"
          stDemo).2
        = ImportResult.ok :=
  ⟨rfl, rfl, rfl, rfl⟩

/-! ### Refresh behaviour -/

/-- What a successful, non-throttled refresh does: live and persisted
markers and configuration take the fetched values, the timestamp is
recorded, loading ends false — and the history has been appended to
(through `setState`, not `clearHistory`), so it holds at least two entries
and undo is possible. -/
theorem refresh_success_behavior (force : Bool) (now : Int)
    (fetched : List Marker × MapConfig) (st : RepoState)
    (hrun : (!force && refreshThrottled st now) = false)
    (hM : st.markersHistory.maxHistory = 50)
    (h1 : 1 ≤ st.markersHistory.history.length)
    (hidx : st.markersHistory.currentIndex < st.markersHistory.history.length)
    (hlen : st.markersHistory.history.length ≤ 50) :
    markersOf (refreshFromSource force now fetched st) = fetched.1 ∧
      (refreshFromSource force now fetched st).mapConfig = fetched.2 ∧
      (refreshFromSource force now fetched st).savedMarkers = fetched.1 ∧
      (refreshFromSource force now fetched st).savedConfig = fetched.2 ∧
      (refreshFromSource force now fetched st).lastFetch = some now ∧
      (refreshFromSource force now fetched st).isLoading = false ∧
      (refreshFromSource force now fetched st).markersHistory.canUndo = true ∧
      2 ≤ (refreshFromSource force now fetched st).markersHistory.history.length := by
  have hred : refreshFromSource force now fetched st = { st with
      savedMarkers := fetched.1, markersHistory := st.markersHistory.setState fetched.1,
      savedConfig := fetched.2, mapConfig := fetched.2, lastFetch := some now,
      isLoading := false } := by
    simp only [refreshFromSource, hrun]
    rfl
  rw [hred]
  refine ⟨?_, rfl, rfl, rfl, rfl, rfl, ?_, ?_⟩
  · exact st.markersHistory.setState_stateOf _ hidx (by rw [hM]; exact hlen)
  · exact st.markersHistory.setState_canUndo _ (by rw [hM]; omega)
  · exact st.markersHistory.setState_length_two _ h1 (by rw [hM]; omega)

/-! ### Share codec behaviour -/

/-- A parameter whose value parses as a number is present and non-empty. -/
theorem strFalsy_false_of_parses (o : Option String) (v : ℚ)
    (hv : jsParseFloat (o.getD "") = some v) : strFalsy o = false := by
  rcases o with - | s0
  · rw [show jsParseFloat ((none : Option String).getD "") = none from rfl] at hv
    exact Option.noConfusion hv
  · show (s0 == "") = false
    cases hs : s0 == "" with
    | false => rfl
    | true =>
        have h0 : s0 = "" := by simpa using hs
        rw [h0] at hv
        rw [show jsParseFloat ((some "" : Option String).getD "") = none from rfl] at hv
        exact Option.noConfusion hv

/-- Decoding fails when any of `x`, `y`, `z` is missing. -/
theorem parseShareUrl_missing (q : List (String × String))
    (h : jsGetParam q "x" = none ∨ jsGetParam q "y" = none ∨ jsGetParam q "z" = none) :
    parseShareUrl q = none := by
  have hb : (strFalsy (jsGetParam q "x") || strFalsy (jsGetParam q "y")
      || strFalsy (jsGetParam q "z")) = true := by
    rcases h with h | h | h <;> simp [h, strFalsy]
  simp [parseShareUrl, hb]

/-- Decoding fails when any of `x`, `y`, `z` does not parse as a number. -/
theorem parseShareUrl_nonnumeric (q : List (String × String))
    (h : jsParseFloat ((jsGetParam q "x").getD "") = none
      ∨ jsParseFloat ((jsGetParam q "y").getD "") = none
      ∨ jsParseFloat ((jsGetParam q "z").getD "") = none) :
    parseShareUrl q = none := by
  cases hb : (strFalsy (jsGetParam q "x") || strFalsy (jsGetParam q "y")
      || strFalsy (jsGetParam q "z")) with
  | true => simp [parseShareUrl, hb]
  | false =>
      simp only [parseShareUrl, hb, Bool.false_eq_true, if_false]
      rcases h with h | h | h
      · rw [h]
      · cases hA : jsParseFloat ((jsGetParam q "x").getD "") <;> simp [hA, h]
      · cases hA : jsParseFloat ((jsGetParam q "x").getD "") <;>
          cases hB : jsParseFloat ((jsGetParam q "y").getD "") <;> simp [hA, hB, h]

/-- Decoding fails, with no error, when the parsed values are out of
range. -/
theorem parseShareUrl_outOfRange (q : List (String × String)) (px py pz : ℚ)
    (hx : jsParseFloat ((jsGetParam q "x").getD "") = some px)
    (hy : jsParseFloat ((jsGetParam q "y").getD "") = some py)
    (hz : jsParseFloat ((jsGetParam q "z").getD "") = some pz)
    (h : px < 0 ∨ 20000 < px ∨ py < 0 ∨ 20000 < py ∨ pz < -5 ∨ 5 < pz) :
    parseShareUrl q = none := by
  have hb : (strFalsy (jsGetParam q "x") || strFalsy (jsGetParam q "y")
      || strFalsy (jsGetParam q "z")) = false := by
    rw [strFalsy_false_of_parses _ _ hx, strFalsy_false_of_parses _ _ hy,
      strFalsy_false_of_parses _ _ hz]
    rfl
  simp only [parseShareUrl, hb, Bool.false_eq_true, if_false, hx, hy, hz]
  by_cases hxy : px < 0 ∨ 20000 < px ∨ py < 0 ∨ 20000 < py
  · rw [if_pos hxy]
  · rw [if_neg hxy, if_pos (by tauto)]

/-- Decoding succeeds on in-range values, carrying a non-empty `marker`
through and dropping an empty one. -/
theorem parseShareUrl_inRange (q : List (String × String)) (px py pz : ℚ)
    (hx : jsParseFloat ((jsGetParam q "x").getD "") = some px)
    (hy : jsParseFloat ((jsGetParam q "y").getD "") = some py)
    (hz : jsParseFloat ((jsGetParam q "z").getD "") = some pz)
    (hx0 : 0 ≤ px) (hx1 : px ≤ 20000) (hy0 : 0 ≤ py) (hy1 : py ≤ 20000)
    (hz0 : -5 ≤ pz) (hz1 : pz ≤ 5) :
    parseShareUrl q = some ⟨px, py, pz, dropEmptyMarker (jsGetParam q "marker")⟩ := by
  have hb : (strFalsy (jsGetParam q "x") || strFalsy (jsGetParam q "y")
      || strFalsy (jsGetParam q "z")) = false := by
    rw [strFalsy_false_of_parses _ _ hx, strFalsy_false_of_parses _ _ hy,
      strFalsy_false_of_parses _ _ hz]
    rfl
  simp only [parseShareUrl, hb, Bool.false_eq_true, if_false, hx, hy, hz]
  rw [if_neg (by push_neg; exact ⟨hx0, hx1, hy0, hy1⟩),
    if_neg (by push_neg; exact ⟨hz0, hz1⟩)]
  rcases hm : jsGetParam q "marker" with - | s0 <;> rfl

/-! ### Concrete parse evaluations -/

/-- Evaluation: `parseFloat("1") = 1`. -/
theorem jsParseFloat_one : jsParseFloat "1" = some 1 := by
  rw [show jsParseFloat "1" = some (floatOfParts false ['1'] [] 0) from rfl]
  norm_num [floatOfParts, show decDigitsVal ['1'] = 1 from rfl,
    show decDigitsVal ([] : List Char) = 0 from rfl]

/-- Evaluation: `parseFloat("2") = 2`. -/
theorem jsParseFloat_two : jsParseFloat "2" = some 2 := by
  rw [show jsParseFloat "2" = some (floatOfParts false ['2'] [] 0) from rfl]
  norm_num [floatOfParts, show decDigitsVal ['2'] = 2 from rfl,
    show decDigitsVal ([] : List Char) = 0 from rfl]

/-- Evaluation: `parseFloat("0") = 0`. -/
theorem jsParseFloat_zero : jsParseFloat "0" = some 0 := by
  rw [show jsParseFloat "0" = some (floatOfParts false ['0'] [] 0) from rfl]
  norm_num [floatOfParts, show decDigitsVal ['0'] = 0 from rfl,
    show decDigitsVal ([] : List Char) = 0 from rfl]

/-- Evaluation: `parseFloat("3") = 3`. -/
theorem jsParseFloat_three : jsParseFloat "3" = some 3 := by
  rw [show jsParseFloat "3" = some (floatOfParts false ['3'] [] 0) from rfl]
  norm_num [floatOfParts, show decDigitsVal ['3'] = 3 from rfl,
    show decDigitsVal ([] : List Char) = 0 from rfl]

/-- Evaluation: `parseFloat("4") = 4`. -/
theorem jsParseFloat_four : jsParseFloat "4" = some 4 := by
  rw [show jsParseFloat "4" = some (floatOfParts false ['4'] [] 0) from rfl]
  norm_num [floatOfParts, show decDigitsVal ['4'] = 4 from rfl,
    show decDigitsVal ([] : List Char) = 0 from rfl]

/-- Evaluation: `parseFloat("25000") = 25000`. -/
theorem jsParseFloat_25000 : jsParseFloat "25000" = some 25000 := by
  rw [show jsParseFloat "25000"
      = some (floatOfParts false ['2', '5', '0', '0', '0'] [] 0) from rfl]
  norm_num [floatOfParts, show decDigitsVal ['2', '5', '0', '0', '0'] = 25000 from rfl,
    show decDigitsVal ([] : List Char) = 0 from rfl]

/-! ## The claims -/

/-- C1: importing the string produced by `exportMarkers` succeeds and
yields a marker list deep-equal to the pre-export list; but afterwards
`canUndo` is `true`, not `false` — the import pushes the list through
`setState` and never calls `clearHistory`, so the history grows instead of
being cleared (the claim's final clause is corrected accordingly). -/
theorem C1_import_export_roundtrip (st : RepoState)
    (hM : st.markersHistory.maxHistory = 50)
    (hidx : st.markersHistory.currentIndex < st.markersHistory.history.length)
    (hlen : st.markersHistory.history.length ≤ 50) :
    (importMarkers (exportMarkers st) st).2 = ImportResult.ok ∧
      markersOf (importMarkers (exportMarkers st) st).1 = markersOf st ∧
      (importMarkers (exportMarkers st) st).1.markersHistory.canUndo = true :=
  import_export_behavior st hM hidx hlen

/-- Witness for C1 at the demo state. -/
theorem C1_import_export_roundtrip_witness :
    stDemo.markersHistory.maxHistory = 50 ∧
      stDemo.markersHistory.currentIndex < stDemo.markersHistory.history.length ∧
      stDemo.markersHistory.history.length ≤ 50 ∧
      ((importMarkers (exportMarkers stDemo) stDemo).2 = ImportResult.ok ∧
        markersOf (importMarkers (exportMarkers stDemo) stDemo).1 = markersOf stDemo ∧
        (importMarkers (exportMarkers stDemo) stDemo).1.markersHistory.canUndo = true) :=
  ⟨rfl, by decide, by decide, C1_import_export_roundtrip stDemo rfl (by decide) (by decide)⟩

/-- C1 counterexample to the claim as stated: at the demo state the
round-trip succeeds and preserves the markers, yet `canUndo` is not
`false`. -/
theorem C1_counterexample :
    (importMarkers (exportMarkers stDemo) stDemo).2 = ImportResult.ok ∧
      markersOf (importMarkers (exportMarkers stDemo) stDemo).1 = markersOf stDemo ∧
      (importMarkers (exportMarkers stDemo) stDemo).1.markersHistory.canUndo ≠ false := by
  obtain ⟨h1, h2, h3⟩ := import_export_behavior stDemo rfl (by decide) (by decide)
  exact ⟨h1, h2, by rw [h3]; decide⟩

/-- C2: importing the object-shape document that lacks a `config` field
does not succeed — `importMarkers` requires both a truthy `config` and a
`markers` array for the object shape, and an object is not an array, so
the call fails with the unrecognized-shape diagnostic and leaves the whole
state unchanged (corrected from the claim, which asserted success). -/
theorem C2_import_without_config (st : RepoState) :
    importMarkers importDocNoConfig st =
      (st, ImportResult.err
        "Invalid format: expected markers array or \x7bconfig, markers\x7d object") :=
  importDocNoConfig_fails st

/-- C2 counterexample to the claim as stated: at the demo state the
config-less import returns an error, not success. -/
theorem C2_counterexample :
    importMarkers importDocNoConfig stDemo =
      (stDemo, ImportResult.err
        "Invalid format: expected markers array or \x7bconfig, markers\x7d object") ∧
      (importMarkers importDocNoConfig stDemo).2 ≠ ImportResult.ok := by
  refine ⟨importDocNoConfig_fails stDemo, ?_⟩
  rw [importDocNoConfig_fails stDemo]
  decide

/-- C3: a successful, non-throttled `refreshFromSource` installs the
fetched markers and config as the live and persisted values and records
the fetch timestamp; but it pushes the fetched list through `setState`
rather than calling `clearHistory`, so the history has at least two
entries and `canUndo` is `true` immediately after the refresh (corrected
from the claim, which asserted a single-entry history and
`canUndo == false`). -/
theorem C3_refresh_success (force : Bool) (now : Int)
    (fetched : List Marker × MapConfig) (st : RepoState)
    (hrun : (!force && refreshThrottled st now) = false)
    (hM : st.markersHistory.maxHistory = 50)
    (h1 : 1 ≤ st.markersHistory.history.length)
    (hidx : st.markersHistory.currentIndex < st.markersHistory.history.length)
    (hlen : st.markersHistory.history.length ≤ 50) :
    markersOf (refreshFromSource force now fetched st) = fetched.1 ∧
      (refreshFromSource force now fetched st).mapConfig = fetched.2 ∧
      (refreshFromSource force now fetched st).savedMarkers = fetched.1 ∧
      (refreshFromSource force now fetched st).savedConfig = fetched.2 ∧
      (refreshFromSource force now fetched st).lastFetch = some now ∧
      (refreshFromSource force now fetched st).isLoading = false ∧
      (refreshFromSource force now fetched st).markersHistory.canUndo = true ∧
      2 ≤ (refreshFromSource force now fetched st).markersHistory.history.length :=
  refresh_success_behavior force now fetched st hrun hM h1 hidx hlen

/-- Witness for C3: a forced refresh of the demo state. -/
theorem C3_refresh_success_witness :
    ((!true && refreshThrottled stDemo 1000) = false) ∧
      stDemo.markersHistory.maxHistory = 50 ∧
      1 ≤ stDemo.markersHistory.history.length ∧
      stDemo.markersHistory.currentIndex < stDemo.markersHistory.history.length ∧
      stDemo.markersHistory.history.length ≤ 50 ∧
      (markersOf (refreshFromSource true 1000 ([mFresh], cfgFresh) stDemo) = [mFresh] ∧
        (refreshFromSource true 1000 ([mFresh], cfgFresh) stDemo).mapConfig = cfgFresh ∧
        (refreshFromSource true 1000 ([mFresh], cfgFresh) stDemo).savedMarkers = [mFresh] ∧
        (refreshFromSource true 1000 ([mFresh], cfgFresh) stDemo).savedConfig = cfgFresh ∧
        (refreshFromSource true 1000 ([mFresh], cfgFresh) stDemo).lastFetch = some 1000 ∧
        (refreshFromSource true 1000 ([mFresh], cfgFresh) stDemo).isLoading = false ∧
        (refreshFromSource true 1000 ([mFresh], cfgFresh)
          stDemo).markersHistory.canUndo = true ∧
        2 ≤ (refreshFromSource true 1000 ([mFresh], cfgFresh)
          stDemo).markersHistory.history.length) :=
  ⟨rfl, rfl, by decide, by decide, by decide,
    C3_refresh_success true 1000 ([mFresh], cfgFresh) stDemo rfl rfl (by decide) (by decide)
      (by decide)⟩

/-- C3 counterexample to the claim as stated: after a forced refresh of
the demo state the history holds two entries, not one, and `canUndo` is
not `false`. -/
theorem C3_counterexample :
    markersOf (refreshFromSource true 1000 ([mFresh], cfgFresh) stDemo) = [mFresh] ∧
      (refreshFromSource true 1000 ([mFresh], cfgFresh) stDemo).mapConfig = cfgFresh ∧
      (refreshFromSource true 1000 ([mFresh], cfgFresh)
        stDemo).markersHistory.history.length ≠ 1 ∧
      (refreshFromSource true 1000 ([mFresh], cfgFresh)
        stDemo).markersHistory.canUndo ≠ false := by
  obtain ⟨h1, h2, _, _, _, _, h7, h8⟩ :=
    refresh_success_behavior true 1000 ([mFresh], cfgFresh) stDemo rfl rfl (by decide)
      (by decide) (by decide)
  exact ⟨h1, h2, by omega, by rw [h7]; decide⟩

/-- C4: in the history engine, after `setState s1; setState s2; undo` the
current state is `s1`; after a further `redo` it is `s2`; `canUndo` holds
exactly when the cursor is positive and `canRedo` exactly when it is
before the last entry; and a `setState s3` after the `undo` discards the
redo branch, leaving history `[a, s1, s3]`. -/
theorem C4_undo_redo_scenario (α : Type) (a s1 s2 s3 : α) :
    ((((UndoRedo.init a).setState s1).setState s2).undo.stateOf = s1) ∧
      ((((UndoRedo.init a).setState s1).setState s2).undo.redo.stateOf = s2) ∧
      (∀ u : UndoRedo α, (u.canUndo = true ↔ 0 < u.currentIndex) ∧
        (u.canRedo = true ↔ u.currentIndex < u.history.length - 1)) ∧
      ((((UndoRedo.init a).setState s1).setState s2).undo.setState s3).history
        = [a, s1, s3] := by
  refine ⟨rfl, rfl, fun u => ⟨?_, ?_⟩, rfl⟩ <;>
    simp [UndoRedo.canUndo, UndoRedo.canRedo]

/-- C5: pushing `maxHistory + 1` states through `setState` from a fresh
history leaves at most `maxHistory` entries and the current state equal to
the last pushed value. -/
theorem C5_history_bound (α : Type) (maxH : Nat) (a : α) (ss : List α)
    (hM : 1 ≤ maxH) (_hlen : ss.length = maxH + 1) (_hnd : ss.Nodup) :
    (pushAll ss (UndoRedo.init a maxH)).history.length ≤ maxH ∧
      (pushAll ss (UndoRedo.init a maxH)).stateOf = ss.getLastD a := by
  have h := pushAll_aligned ss (UndoRedo.init a maxH) hM rfl hM
  exact ⟨h.2.1, h.2.2.2⟩

/-- Witness for C5: three distinct states against a bound of two. -/
theorem C5_history_bound_witness :
    1 ≤ 2 ∧ ([1, 2, 3] : List ℕ).length = 2 + 1 ∧ ([1, 2, 3] : List ℕ).Nodup ∧
      ((pushAll [1, 2, 3] (UndoRedo.init 0 2)).history.length ≤ 2 ∧
        (pushAll [1, 2, 3] (UndoRedo.init 0 2)).stateOf = ([1, 2, 3] : List ℕ).getLastD 0) :=
  ⟨by decide, by decide, by decide,
    C5_history_bound ℕ 2 0 [1, 2, 3] (by decide) (by decide) (by decide)⟩

/-- C6: `parseShareUrl` returns `none` when any of `x`, `y`, `z` is
missing or non-numeric, and `none` (not an error) when the parsed values
fall outside `[0, 20000]` for `x`, `y` or `[-5, 5]` for `z`; on in-range
values it returns them, with the `marker` parameter passed through when it
is non-empty but dropped when it is present and empty — the `if (marker)`
guard treats the empty string as falsy (the claim's unconditional
pass-through is corrected accordingly). -/
theorem C6_share_url_validation :
    (∀ q : List (String × String),
        jsGetParam q "x" = none ∨ jsGetParam q "y" = none ∨ jsGetParam q "z" = none →
        parseShareUrl q = none) ∧
      (∀ q : List (String × String),
        jsParseFloat ((jsGetParam q "x").getD "") = none
          ∨ jsParseFloat ((jsGetParam q "y").getD "") = none
          ∨ jsParseFloat ((jsGetParam q "z").getD "") = none →
        parseShareUrl q = none) ∧
      (∀ (q : List (String × String)) (px py pz : ℚ),
        jsParseFloat ((jsGetParam q "x").getD "") = some px →
        jsParseFloat ((jsGetParam q "y").getD "") = some py →
        jsParseFloat ((jsGetParam q "z").getD "") = some pz →
        (px < 0 ∨ 20000 < px ∨ py < 0 ∨ 20000 < py ∨ pz < -5 ∨ 5 < pz) →
        parseShareUrl q = none) ∧
      (∀ (q : List (String × String)) (px py pz : ℚ),
        jsParseFloat ((jsGetParam q "x").getD "") = some px →
        jsParseFloat ((jsGetParam q "y").getD "") = some py →
        jsParseFloat ((jsGetParam q "z").getD "") = some pz →
        0 ≤ px → px ≤ 20000 → 0 ≤ py → py ≤ 20000 → -5 ≤ pz → pz ≤ 5 →
        parseShareUrl q = some ⟨px, py, pz, dropEmptyMarker (jsGetParam q "marker")⟩) :=
  ⟨parseShareUrl_missing, parseShareUrl_nonnumeric,
    parseShareUrl_outOfRange, parseShareUrl_inRange⟩

/-- Witness for C6: a query missing `z` decodes to `none`; `x = 25000`
decodes to `none`; an in-range query decodes to its values with the
non-empty marker carried through. -/
theorem C6_share_url_validation_witness :
    jsGetParam qMissingZ "z" = none ∧ parseShareUrl qMissingZ = none ∧
      jsParseFloat ((jsGetParam qBigX "x").getD "") = some 25000 ∧
      ((25000 : ℚ) < 0 ∨ 20000 < (25000 : ℚ) ∨ (0 : ℚ) < 0 ∨ 20000 < (0 : ℚ)
        ∨ (0 : ℚ) < -5 ∨ 5 < (0 : ℚ)) ∧
      parseShareUrl qBigX = none ∧
      parseShareUrl qShare = some ⟨3, 4, 1, some "home"⟩ :=
  ⟨rfl, C6_share_url_validation.1 qMissingZ (Or.inr (Or.inr rfl)),
    jsParseFloat_25000, Or.inr (Or.inl (by norm_num)),
    C6_share_url_validation.2.2.1 qBigX 25000 0 0 jsParseFloat_25000 jsParseFloat_zero
      jsParseFloat_zero (Or.inr (Or.inl (by norm_num))),
    C6_share_url_validation.2.2.2 qShare 3 4 1 jsParseFloat_three jsParseFloat_four
      jsParseFloat_one (by norm_num) (by norm_num) (by norm_num) (by norm_num)
      (by norm_num) (by norm_num)⟩

/-- C6 counterexample to the claim's unconditional marker pass-through: a
present-but-empty marker parameter is dropped, not carried through. -/
theorem C6_counterexample :
    jsGetParam qEmptyMarker "marker" = some "" ∧
      parseShareUrl qEmptyMarker = some ⟨1, 2, 0, none⟩ ∧
      (some "" : Option String) ≠ none := by
  refine ⟨rfl, ?_, by simp⟩
  exact parseShareUrl_inRange qEmptyMarker 1 2 0 jsParseFloat_one jsParseFloat_two
    jsParseFloat_zero (by norm_num) (by norm_num) (by norm_num) (by norm_num)
    (by norm_num) (by norm_num)

/-- C7: for integer pixel coordinates within the image bounds,
`fromLeaflet` inverts `toLeaflet` exactly. -/
theorem C7_coordinate_roundtrip (W H x y : ℤ)
    (_hx0 : 0 ≤ x) (_hxW : x ≤ W) (_hy0 : 0 ≤ y) (_hyH : y ≤ H) :
    fromLeaflet (H : ℚ) (toLeaflet (H : ℚ) (x : ℚ) (y : ℚ)).1
      (toLeaflet (H : ℚ) (x : ℚ) (y : ℚ)).2 = (x, y) := by
  simp [toLeaflet, fromLeaflet, sub_sub_cancel, round_intCast]

/-- Witness for C7 at `(x, y) = (3, 4)` in a 1000 by 800 image. -/
theorem C7_coordinate_roundtrip_witness :
    (0 : ℤ) ≤ 3 ∧ (3 : ℤ) ≤ 1000 ∧ (0 : ℤ) ≤ 4 ∧ (4 : ℤ) ≤ 800 ∧
      fromLeaflet ((800 : ℤ) : ℚ) (toLeaflet ((800 : ℤ) : ℚ) ((3 : ℤ) : ℚ) ((4 : ℤ) : ℚ)).1
        (toLeaflet ((800 : ℤ) : ℚ) ((3 : ℤ) : ℚ) ((4 : ℤ) : ℚ)).2 = (3, 4) :=
  ⟨by decide, by decide, by decide, by decide,
    C7_coordinate_roundtrip 1000 800 3 4 (by decide) (by decide) (by decide) (by decide)⟩

/-- C8: when the trimmed search string is shorter than two characters,
`filteredMarkers` is exactly the type filter: the sublist of markers whose
type is enabled, in order, with the fuzzy engine never consulted. -/
theorem C8_short_search_filter (fz : List Marker → String → List Marker)
    (markers : List Marker) (filters : MarkerFilters) (s : String)
    (h : (jsTrim s).length < 2) :
    filteredMarkers fz markers filters s = markers.filter (fun m => filters.types m.type) := by
  show (if s = "" ∨ (jsTrim s).length < 2 then markers.filter (fun m => filters.types m.type)
      else fz (markers.filter (fun m => filters.types m.type)) (jsTrim s)) = _
  rw [if_pos (Or.inr h)]

/-- Witness for C8: a one-letter query with an everything-enabled filter
and a fuzzy engine that would discard everything. -/
theorem C8_short_search_filter_witness :
    ((jsTrim "a").length < 2) ∧
      filteredMarkers fuzzNone [mDemo] filtersAll "a"
        = [mDemo].filter (fun m => filtersAll.types m.type) :=
  ⟨by decide, C8_short_search_filter fuzzNone [mDemo] filtersAll "a" (by decide)⟩

/-- C9: `importMarkers` on unparseable input fails with the
malformed-document diagnostic and returns the state unchanged; on input
that parses to something that is neither the `\x7bconfig, markers\x7d`
shape nor an array it fails with the unrecognized-shape diagnostic, also
unchanged — except for the document `null`, which parses but still reports
the malformed-document diagnostic, because reading `.config` of `null`
throws inside the `try` (the claim's taxonomy is corrected for this
case). -/
theorem C9_import_error_taxonomy :
    (∀ (s : String) (st : RepoState), jsonParse s = none →
        importMarkers s st = (st, ImportResult.err "Invalid JSON")) ∧
      (∀ st : RepoState, importMarkers "null" st = (st, ImportResult.err "Invalid JSON")) ∧
      (∀ (s : String) (v : Json) (st : RepoState), jsonParse s = some v → v ≠ Json.null →
        hasImportObjectShape v = false → v.isArr = false →
        importMarkers s st =
          (st, ImportResult.err
            "Invalid format: expected markers array or \x7bconfig, markers\x7d object")) :=
  ⟨importMarkers_malformed, importMarkers_null, importMarkers_unrecognized⟩

/-- Witness for C9: the document `not json` does not parse and reports the
malformed-document error; the leading-zero numeral `042`, a syntax error
for `JSON.parse`, likewise; `42` parses to a non-null non-object non-array
and reports the unrecognized-shape error. -/
theorem C9_import_error_taxonomy_witness :
    jsonParse "not json" = none ∧
      importMarkers "not json" stDemo = (stDemo, ImportResult.err "Invalid JSON") ∧
      jsonParse "042" = none ∧
      importMarkers "042" stDemo = (stDemo, ImportResult.err "Invalid JSON") ∧
      jsonParse "42" = some (Json.num 42 0) ∧
      hasImportObjectShape (Json.num 42 0) = false ∧
      (Json.num 42 0).isArr = false ∧
      importMarkers "42" stDemo =
        (stDemo, ImportResult.err
          "Invalid format: expected markers array or \x7bconfig, markers\x7d object") :=
  ⟨rfl, C9_import_error_taxonomy.1 "not json" stDemo rfl,
    rfl, C9_import_error_taxonomy.1 "042" stDemo rfl, rfl, rfl, rfl,
    C9_import_error_taxonomy.2.2 "42" (Json.num 42 0) stDemo rfl
      (fun h => Json.noConfusion h) rfl rfl⟩

/-- C9 counterexample to the claim's taxonomy as stated: `null` parses yet
matches neither shape, but the import reports the malformed-document
diagnostic, not the unrecognized-shape one. -/
theorem C9_counterexample :
    jsonParse "null" = some Json.null ∧
      hasImportObjectShape Json.null = false ∧
      Json.null.isArr = false ∧
      importMarkers "null" stDemo = (stDemo, ImportResult.err "Invalid JSON") ∧
      ImportResult.err "Invalid JSON" ≠ ImportResult.err
        "Invalid format: expected markers array or \x7bconfig, markers\x7d object" :=
  ⟨rfl, rfl, rfl, importMarkers_null stDemo, by decide⟩

/-- C10: after any sequence of set, undo, redo and clear operations
starting from a fresh history, the history is non-empty and the cursor
stays within it, so reading the current state is always in bounds. -/
theorem C10_history_in_bounds (α : Type) (a : α) (M : Nat) (ops : List (HistOp α))
    (_hM : 1 ≤ M) :
    1 ≤ (applyOps ops (UndoRedo.init a M)).history.length ∧
      (applyOps ops (UndoRedo.init a M)).currentIndex
          ≤ (applyOps ops (UndoRedo.init a M)).history.length - 1 ∧
      ((applyOps ops (UndoRedo.init a M)).history.get?
          (applyOps ops (UndoRedo.init a M)).currentIndex).isSome = true := by
  obtain ⟨h1, h2⟩ := applyOps_inv ops (UndoRedo.init a M) (Nat.le_refl 1) Nat.zero_lt_one
  refine ⟨h1, by omega, ?_⟩
  rw [List.get?_eq_get h2]
  rfl

/-- Witness for C10 on a sample operation sequence with the default
bound. -/
theorem C10_history_in_bounds_witness :
    1 ≤ 50 ∧
      (1 ≤ (applyOps opsDemo (UndoRedo.init 0 50)).history.length ∧
        (applyOps opsDemo (UndoRedo.init 0 50)).currentIndex
            ≤ (applyOps opsDemo (UndoRedo.init 0 50)).history.length - 1 ∧
        ((applyOps opsDemo (UndoRedo.init 0 50)).history.get?
            (applyOps opsDemo (UndoRedo.init 0 50)).currentIndex).isSome = true) :=
  ⟨by decide, C10_history_in_bounds ℕ 0 50 opsDemo (by decide)⟩
